import Mathlib

/-!
Verification development for the chess engine repository (zobrist.py,
IA_LA_VRAIE.py, gestion_memoire.py).

The board model (squares, pieces, move application, legality) embeds the
behaviour of the external `python-chess` board library on which the engine
relies, restricted to standard chess; it is modelled from the rules of
standard chess and from the library behaviour the spec describes (push/pop
semantics, ep squares, castling-rights bookkeeping).  Everything specific to
the repository (`hash_zobrist`, `update_cle`, `update_TT`, `evaluate`,
`quiescence`, `alpha_beta`, the weight sanitization) is translated directly
from the source files.

Squares are numbered as in python-chess: square = file + 8 * rank, a1 = 0,
h8 = 63.  Machine integers of the source are arbitrary-precision Python
ints, so they are modelled as `Nat` (hash values, XOR) and `ℚ` (scores,
weights: the source uses Python floats only for score arithmetic, and every
branch the claims touch returns exact small constants).
-/

namespace Chess

/-- The two sides. -/
inductive Color where
  | white
  | black
deriving DecidableEq

/-- The opposite side (`not color` in the source). -/
def Color.other : Color → Color
  | .white => .black
  | .black => .white

/-- The six piece kinds of python-chess. -/
inductive PieceType where
  | pawn
  | knight
  | bishop
  | rook
  | queen
  | king
deriving DecidableEq

/-- A coloured piece. -/
structure Piece where
  pieceType : PieceType
  color : Color
deriving DecidableEq

/-- File (column) of a square, 0..7 (`chess.square_file`). -/
def squareFile (sq : Nat) : Nat := sq % 8

/-- Rank (row) of a square, 0..7 (`chess.square_rank`). -/
def squareRank (sq : Nat) : Nat := sq / 8

def A1 : Nat := 0
def B1 : Nat := 1
def C1 : Nat := 2
def D1 : Nat := 3
def E1 : Nat := 4
def F1 : Nat := 5
def G1 : Nat := 6
def H1 : Nat := 7
def A8 : Nat := 56
def B8 : Nat := 57
def C8 : Nat := 58
def D8 : Nat := 59
def E8 : Nat := 60
def F8 : Nat := 61
def G8 : Nat := 62
def H8 : Nat := 63

/--
A chess position in the sense of the board library: piece placement,
side to move, the four castling-rights bits (python-chess keeps them as a
bitboard over the rook home squares H1/A1/H8/A8; for standard chess these
four bits are exactly the four rights), the raw en-passant square (set after
any double pawn push, as in python-chess `Board.ep_square`), and the move
counters.
-/
structure Board where
  pieces : Nat → Option Piece
  turn : Color
  castleWK : Bool
  castleWQ : Bool
  castleBK : Bool
  castleBQ : Bool
  ep : Option Nat
  halfmove : Nat
  fullmove : Nat

/-- A move as in python-chess: from-square, to-square, optional promotion. -/
structure Move where
  from_square : Nat
  to_square : Nat
  promotion : Option PieceType
deriving DecidableEq

/--
The Zobrist tables produced by `creer_zobrist` in zobrist.py:
`ZP` = ZOBRIST_PIECES (square, piece-index), `ZR` = ZOBRIST_ROQUES,
`ZE` = ZOBRIST_EN_PASSANT (file), `ZT` = ZOBRIST_TOUR (side key).
The entries are arbitrary naturals: every theorem below holds for every
choice of tables, in particular for the random 64-bit ones of the source.
-/
structure ZTables where
  ZP : Nat → Nat → Nat
  ZR : Nat → Nat
  ZE : Nat → Nat
  ZT : Nat

/-- INDEX_PIECES of zobrist.py: P N B R Q K = 0..5, p n b r q k = 6..11. -/
def pieceIndex (p : Piece) : Nat :=
  let base :=
    match p.pieceType with
    | .pawn => 0
    | .knight => 1
    | .bishop => 2
    | .rook => 3
    | .queen => 4
    | .king => 5
  match p.color with
  | .white => base
  | .black => base + 6

/-- Zobrist key contributed by the content of one square (0 when empty). -/
def pieceKey (T : ZTables) (sq : Nat) : Option Piece → Nat
  | none => 0
  | some p => T.ZP sq (pieceIndex p)

/-- XOR of the per-square keys over the 64 squares, as the loop of
`hash_zobrist` accumulates it. -/
def piecesHash (T : ZTables) (f : Nat → Option Piece) : Nat :=
  (List.range 64).foldl (fun h sq => h ^^^ pieceKey T sq (f sq)) 0

/-- Castling-rights component of the hash: the four conditional XORs of
`hash_zobrist` (kingside/queenside for White, then Black). -/
def castleHash (T : ZTables) (b : Board) : Nat :=
  (if b.castleWK then T.ZR 0 else 0) ^^^
  (if b.castleWQ then T.ZR 1 else 0) ^^^
  (if b.castleBK then T.ZR 2 else 0) ^^^
  (if b.castleBQ then T.ZR 3 else 0)

/-- En-passant component of the hash. -/
def epHash (T : ZTables) : Option Nat → Nat
  | none => 0
  | some e => T.ZE (squareFile e)

/-- Side-to-move component of the hash. -/
def turnHash (T : ZTables) : Color → Nat
  | .white => 0
  | .black => T.ZT

/-- Translation of `hash_zobrist` (zobrist.py): XOR of the keys of all
occupied squares, the set castling rights, the en-passant file and the
side to move. -/
def hash_zobrist (T : ZTables) (b : Board) : Nat :=
  piecesHash T b.pieces ^^^ castleHash T b ^^^ epHash T b.ep ^^^ turnHash T b.turn

/-- python-chess `Board.is_en_passant`: the target is the raw ep square, a
pawn (of either colour) stands on the from-square, the move is a one-step
diagonal, and the target square is empty. -/
def isEnPassant (b : Board) (m : Move) : Bool :=
  match b.ep with
  | none => false
  | some e =>
    decide (e = m.to_square) &&
    (match b.pieces m.from_square with
     | some p => decide (p.pieceType = PieceType.pawn)
     | none => false) &&
    (decide (m.to_square + 7 = m.from_square) || decide (m.from_square + 7 = m.to_square) ||
     decide (m.to_square + 9 = m.from_square) || decide (m.from_square + 9 = m.to_square)) &&
    (b.pieces m.to_square).isNone

/-- python-chess `Board.is_capture`: the target square is occupied by the
opponent, or the move is an en-passant capture. -/
def isCapture (b : Board) (m : Move) : Bool :=
  (match b.pieces m.to_square with
   | some q => decide (q.color ≠ b.turn)
   | none => false) ||
  isEnPassant b m

/-- python-chess `Board.is_castling`: a king stands on the from-square and
either the king moves more than one file or it lands on a rook of the side
to move. -/
def isCastling (b : Board) (m : Move) : Bool :=
  match b.pieces m.from_square with
  | none => false
  | some p =>
    decide (p.pieceType = PieceType.king) &&
    ((decide (squareFile m.from_square + 2 ≤ squareFile m.to_square) ||
      decide (squareFile m.to_square + 2 ≤ squareFile m.from_square)) ||
     (match b.pieces m.to_square with
      | some q => decide (q.pieceType = PieceType.rook) && decide (q.color = b.turn)
      | none => false))

/-- Rook from/to squares of a castling move, dispatched on the king's
landing square exactly as in `update_cle` (zobrist.py, lines 240-247). -/
def castleRookSquares (m : Move) : Nat × Nat :=
  if m.to_square = G1 then (H1, F1)
  else if m.to_square = C1 then (A1, D1)
  else if m.to_square = G8 then (H8, F8)
  else (A8, D8)

/--
Net effect of python-chess `Board.push` for a non-null move, restricted to
standard chess: remove the mover, remove a captured piece (on the square it
actually occupies, also for en passant), move the rook on castling, place
the arriving piece (the promotion piece on promotion, coloured by the side
to move), clear the castling rights of touched rook home squares and of a
moving king's whole side, set the raw ep square on a double pawn push,
update the move counters, and flip the side to move.  A move whose
from-square is empty leaves the board unchanged (the library raises there;
the case is unreachable for legal moves).
-/
def pushMove (b : Board) (m : Move) : Board :=
  match b.pieces m.from_square with
  | none => b
  | some p =>
    let zeroing : Bool :=
      decide (p.pieceType = PieceType.pawn) ||
      (match b.pieces m.to_square with
       | some q => decide (q.color ≠ b.turn)
       | none => false)
    let halfmove' := if zeroing then 0 else b.halfmove + 1
    let fullmove' := if b.turn = Color.black then b.fullmove + 1 else b.fullmove
    let kingMove : Bool := decide (p.pieceType = PieceType.king)
    let touches : Nat → Bool := fun sq => decide (m.from_square = sq) || decide (m.to_square = sq)
    let castleWK' := b.castleWK && !touches H1 && !(kingMove && decide (b.turn = Color.white))
    let castleWQ' := b.castleWQ && !touches A1 && !(kingMove && decide (b.turn = Color.white))
    let castleBK' := b.castleBK && !touches H8 && !(kingMove && decide (b.turn = Color.black))
    let castleBQ' := b.castleBQ && !touches A8 && !(kingMove && decide (b.turn = Color.black))
    let ep' : Option Nat :=
      if p.pieceType = PieceType.pawn then
        if m.to_square = m.from_square + 16 ∧ squareRank m.from_square = 1 then
          some (m.from_square + 8)
        else if m.from_square = m.to_square + 16 ∧ squareRank m.from_square = 6 then
          some (m.from_square - 8)
        else none
      else none
    let arriving : Piece :=
      { pieceType := match m.promotion with
                     | some pt => pt
                     | none => p.pieceType,
        color := b.turn }
    let pieces' : Nat → Option Piece :=
      if isCastling b m then
        let aSide := squareFile m.to_square < squareFile m.from_square
        let kTo := if aSide then (if b.turn = Color.white then C1 else C8)
                   else (if b.turn = Color.white then G1 else G8)
        let rFrom := if aSide then (if b.turn = Color.white then A1 else A8)
                     else (if b.turn = Color.white then H1 else H8)
        let rTo := if aSide then (if b.turn = Color.white then D1 else D8)
                   else (if b.turn = Color.white then F1 else F8)
        Function.update
          (Function.update
            (Function.update (Function.update b.pieces m.from_square none) rFrom none)
            kTo (some { pieceType := PieceType.king, color := b.turn }))
          rTo (some { pieceType := PieceType.rook, color := b.turn })
      else
        let afterFrom := Function.update b.pieces m.from_square none
        let afterCap :=
          if isEnPassant b m then
            Function.update afterFrom
              (if b.turn = Color.white then m.to_square - 8 else m.to_square + 8) none
          else afterFrom
        Function.update afterCap m.to_square (some arriving)
    { pieces := pieces'
      turn := b.turn.other
      castleWK := castleWK'
      castleWQ := castleWQ'
      castleBK := castleBK'
      castleBQ := castleBQ'
      ep := ep'
      halfmove := halfmove'
      fullmove := fullmove' }

/-- Net effect of python-chess `Board.push` for the null move: flip the
side to move, clear the ep square, advance the counters. -/
def pushNull (b : Board) : Board :=
  { b with
    turn := b.turn.other
    ep := none
    halfmove := b.halfmove + 1
    fullmove := if b.turn = Color.black then b.fullmove + 1 else b.fullmove }

/--
Translation of `update_cle` (zobrist.py): incremental Zobrist update of the
key `cle` of position `b` for the move `m`.  The source reads the moving
piece, XORs out any old ep file, XORs the mover off its from-square, XORs
out a captured piece (en-passant aware), XORs the rook across on castling,
XORs the arriving piece (promotion aware), diffs the castling rights by
pushing and popping the move on the real board, XORs in a new ep file on a
double pawn push, and XORs the side key.  The unconditional piece reads of
the source (moving piece, captured piece, castling rook) are unreachable as
`none` for legal moves; those branches return the key unchanged here.
-/
def update_cle (T : ZTables) (b : Board) (cle : Nat) (m : Move) : Nat :=
  match b.pieces m.from_square with
  | none => cle
  | some piece =>
    let piece_index := pieceIndex piece
    let cle :=
      match b.ep with
      | some e => cle ^^^ T.ZE (squareFile e)
      | none => cle
    let cle := cle ^^^ T.ZP m.from_square piece_index
    let cle :=
      if isCapture b m then
        let cap_sq :=
          if isEnPassant b m then
            if piece.color = Color.white then m.to_square - 8 else m.to_square + 8
          else m.to_square
        match b.pieces cap_sq with
        | some captured => cle ^^^ T.ZP cap_sq (pieceIndex captured)
        | none => cle
      else cle
    let cle :=
      if isCastling b m then
        let rsq := castleRookSquares m
        match b.pieces rsq.1 with
        | some rook => cle ^^^ T.ZP rsq.1 (pieceIndex rook) ^^^ T.ZP rsq.2 (pieceIndex rook)
        | none => cle
      else cle
    let cle :=
      match m.promotion with
      | some pt => cle ^^^ T.ZP m.to_square (pieceIndex { pieceType := pt, color := piece.color })
      | none => cle ^^^ T.ZP m.to_square piece_index
    let after := pushMove b m
    let cle := if b.castleWK ≠ after.castleWK then cle ^^^ T.ZR 0 else cle
    let cle := if b.castleWQ ≠ after.castleWQ then cle ^^^ T.ZR 1 else cle
    let cle := if b.castleBK ≠ after.castleBK then cle ^^^ T.ZR 2 else cle
    let cle := if b.castleBQ ≠ after.castleBQ then cle ^^^ T.ZR 3 else cle
    let cle :=
      if piece.pieceType = PieceType.pawn then
        if squareRank m.from_square + 2 = squareRank m.to_square ∨
           squareRank m.to_square + 2 = squareRank m.from_square then
          cle ^^^ T.ZE (squareFile m.to_square)
        else cle
      else cle
    cle ^^^ T.ZT

/-- Step from a square by a file/rank delta, `none` when leaving the board. -/
def shiftSq (sq : Nat) (df dr : Int) : Option Nat :=
  let f : Int := (squareFile sq : Int) + df
  let r : Int := (squareRank sq : Int) + dr
  if 0 ≤ f ∧ f < 8 ∧ 0 ≤ r ∧ r < 8 then some ((r * 8 + f).toNat) else none

def knightDeltas : List (Int × Int) :=
  [(1, 2), (2, 1), (2, -1), (1, -2), (-1, -2), (-2, -1), (-2, 1), (-1, 2)]

def kingDeltas : List (Int × Int) :=
  [(1, 0), (1, 1), (0, 1), (-1, 1), (-1, 0), (-1, -1), (0, -1), (1, -1)]

def rookDirs : List (Int × Int) := [(1, 0), (-1, 0), (0, 1), (0, -1)]

def bishopDirs : List (Int × Int) := [(1, 1), (1, -1), (-1, 1), (-1, -1)]

/-- First occupied square (with its piece) along a direction, if any. -/
def rayFirst (f : Nat → Option Piece) (d : Int × Int) : Nat → Nat → Option (Nat × Piece)
  | 0, _ => none
  | fuel + 1, sq =>
    match shiftSq sq d.1 d.2 with
    | none => none
    | some sq' =>
      match f sq' with
      | some p => some (sq', p)
      | none => rayFirst f d fuel sq'

/-- Does a piece of colour `c` attack the square `target`?  Knight and king
attacks by offset, pawn attacks by the two backward diagonals, slider
attacks as the first piece met along each ray. -/
def isAttackedBy (f : Nat → Option Piece) (c : Color) (target : Nat) : Bool :=
  knightDeltas.any (fun d =>
    match shiftSq target d.1 d.2 with
    | some s => f s = some { pieceType := PieceType.knight, color := c }
    | none => false) ||
  kingDeltas.any (fun d =>
    match shiftSq target d.1 d.2 with
    | some s => f s = some { pieceType := PieceType.king, color := c }
    | none => false) ||
  (let pawnDirs : List (Int × Int) :=
    match c with
    | .white => [(-1, -1), (1, -1)]
    | .black => [(-1, 1), (1, 1)]
   pawnDirs.any (fun d =>
    match shiftSq target d.1 d.2 with
    | some s => f s = some { pieceType := PieceType.pawn, color := c }
    | none => false)) ||
  rookDirs.any (fun d =>
    match rayFirst f d 8 target with
    | some (_, p) =>
      decide (p.color = c) &&
      (decide (p.pieceType = PieceType.rook) || decide (p.pieceType = PieceType.queen))
    | none => false) ||
  bishopDirs.any (fun d =>
    match rayFirst f d 8 target with
    | some (_, p) =>
      decide (p.color = c) &&
      (decide (p.pieceType = PieceType.bishop) || decide (p.pieceType = PieceType.queen))
    | none => false)

/-- Square of the king of colour `c`, if present (`Board.king`). -/
def kingSquare (f : Nat → Option Piece) (c : Color) : Option Nat :=
  (List.range 64).find? (fun s => f s = some { pieceType := PieceType.king, color := c })

/-- Is the king of colour `c` attacked by the other side? -/
def inCheck (b : Board) (c : Color) : Bool :=
  match kingSquare b.pieces c with
  | some k => isAttackedBy b.pieces c.other k
  | none => false

/-- Can a slider travel from `fromSq` to `tgt` in direction `d` through empty
squares only (the target itself may be occupied)? -/
def rayReaches (f : Nat → Option Piece) (d : Int × Int) : Nat → Nat → Nat → Bool
  | 0, _, _ => false
  | fuel + 1, cur, tgt =>
    match shiftSq cur d.1 d.2 with
    | none => false
    | some s =>
      if s = tgt then true
      else if (f s).isSome then false
      else rayReaches f d fuel s tgt

def slideOk (f : Nat → Option Piece) (dirs : List (Int × Int)) (fromSq tgt : Nat) : Bool :=
  dirs.any (fun d => rayReaches f d 8 fromSq tgt)

/-- One-step adjacency of two files (rules out board wrap-around). -/
def fileAdjacent (a b : Nat) : Bool :=
  decide (squareFile a + 1 = squareFile b) || decide (squareFile b + 1 = squareFile a)

/-- Diagonal one-step geometry of a pawn capture of colour `c`. -/
def pawnCaptureGeom (c : Color) (m : Move) : Bool :=
  fileAdjacent m.from_square m.to_square &&
  (match c with
   | .white => decide (m.to_square = m.from_square + 7) || decide (m.to_square = m.from_square + 9)
   | .black => decide (m.from_square = m.to_square + 7) || decide (m.from_square = m.to_square + 9))

/-- Movement clause for a pawn: single push, double push, ordinary diagonal
capture, or en-passant capture (with the captured pawn actually present
behind the ep square, as in any position reachable in legal play), together
with the promotion discipline on the last rank. -/
def pawnClause (b : Board) (m : Move) (c : Color) : Bool :=
  (if (decide (c = Color.white) && decide (squareRank m.to_square = 7)) ||
      (decide (c = Color.black) && decide (squareRank m.to_square = 0)) then
    match m.promotion with
    | some pt => decide (pt = PieceType.knight) || decide (pt = PieceType.bishop) ||
                 decide (pt = PieceType.rook) || decide (pt = PieceType.queen)
    | none => false
  else (m.promotion.isNone : Bool)) &&
  ((match c with
    | .white => decide (m.to_square = m.from_square + 8)
    | .black => decide (m.from_square = m.to_square + 8)) &&
    (b.pieces m.to_square).isNone ||
   (match c with
    | .white =>
      decide (m.to_square = m.from_square + 16) && decide (squareRank m.from_square = 1) &&
      (b.pieces (m.from_square + 8)).isNone && (b.pieces m.to_square).isNone
    | .black =>
      decide (m.from_square = m.to_square + 16) && decide (squareRank m.from_square = 6) &&
      (b.pieces (m.from_square - 8)).isNone && (b.pieces m.to_square).isNone) ||
   (pawnCaptureGeom c m &&
    match b.pieces m.to_square with
    | some q => decide (q.color = c.other)
    | none => false) ||
   (pawnCaptureGeom c m && decide (b.ep = some m.to_square) && (b.pieces m.to_square).isNone &&
    decide (squareRank m.to_square = match c with | .white => 5 | .black => 2) &&
    decide (b.pieces (match c with | .white => m.to_square - 8 | .black => m.to_square + 8) =
      some { pieceType := PieceType.pawn, color := c.other })))

/-- Castling clause of the king: standard-chess castling with the usual
rights, emptiness, and no-check / no-transit-attack conditions. -/
def castleClause (b : Board) (m : Move) : Bool :=
  m.promotion.isNone &&
  ((decide (b.turn = Color.white) && decide (m.from_square = E1) &&
    ((decide (m.to_square = G1) && b.castleWK &&
      decide (b.pieces H1 = some { pieceType := PieceType.rook, color := Color.white }) &&
      (b.pieces F1).isNone && (b.pieces G1).isNone &&
      !inCheck b Color.white &&
      !isAttackedBy b.pieces Color.black F1 && !isAttackedBy b.pieces Color.black G1) ||
     (decide (m.to_square = C1) && b.castleWQ &&
      decide (b.pieces A1 = some { pieceType := PieceType.rook, color := Color.white }) &&
      (b.pieces B1).isNone && (b.pieces C1).isNone && (b.pieces D1).isNone &&
      !inCheck b Color.white &&
      !isAttackedBy b.pieces Color.black D1 && !isAttackedBy b.pieces Color.black C1))) ||
   (decide (b.turn = Color.black) && decide (m.from_square = E8) &&
    ((decide (m.to_square = G8) && b.castleBK &&
      decide (b.pieces H8 = some { pieceType := PieceType.rook, color := Color.black }) &&
      (b.pieces F8).isNone && (b.pieces G8).isNone &&
      !inCheck b Color.black &&
      !isAttackedBy b.pieces Color.white F8 && !isAttackedBy b.pieces Color.white G8) ||
     (decide (m.to_square = C8) && b.castleBQ &&
      decide (b.pieces A8 = some { pieceType := PieceType.rook, color := Color.black }) &&
      (b.pieces B8).isNone && (b.pieces C8).isNone && (b.pieces D8).isNone &&
      !inCheck b Color.black &&
      !isAttackedBy b.pieces Color.white D8 && !isAttackedBy b.pieces Color.white C8))))

/-- Pseudo-legal moves of standard chess: a piece of the side to move makes a
move of its geometric kind to a square not occupied by its own side.
Legality on top of this only adds that the own king is not left in check. -/
def pseudoLegalMove (b : Board) (m : Move) : Bool :=
  decide (m.from_square < 64) && decide (m.to_square < 64) &&
  decide (m.from_square ≠ m.to_square) &&
  match b.pieces m.from_square with
  | none => false
  | some p =>
    decide (p.color = b.turn) &&
    (match b.pieces m.to_square with
     | some q => decide (q.color ≠ b.turn)
     | none => true) &&
    (match p.pieceType with
     | .knight =>
       m.promotion.isNone &&
       knightDeltas.any (fun d => shiftSq m.from_square d.1 d.2 = some m.to_square)
     | .bishop => m.promotion.isNone && slideOk b.pieces bishopDirs m.from_square m.to_square
     | .rook => m.promotion.isNone && slideOk b.pieces rookDirs m.from_square m.to_square
     | .queen =>
       m.promotion.isNone && slideOk b.pieces (rookDirs ++ bishopDirs) m.from_square m.to_square
     | .king =>
       (m.promotion.isNone &&
        kingDeltas.any (fun d => shiftSq m.from_square d.1 d.2 = some m.to_square)) ||
       castleClause b m
     | .pawn => pawnClause b m p.color)

/-- A legal move: pseudo-legal and not leaving the own king in check. -/
def LegalMove (b : Board) (m : Move) : Prop :=
  pseudoLegalMove b m = true ∧ inCheck (pushMove b m) b.turn = false

instance (b : Board) (m : Move) : Decidable (LegalMove b m) := by
  unfold LegalMove; infer_instance

/-- Candidate moves from one square: every target square, with the four
promotion variants when a pawn reaches the last rank. -/
def candidateMoves (b : Board) (fromSq : Nat) : List Move :=
  match b.pieces fromSq with
  | none => []
  | some p =>
    if p.color = b.turn then
      (List.range 64).flatMap (fun toSq =>
        if p.pieceType = PieceType.pawn ∧ (squareRank toSq = 7 ∨ squareRank toSq = 0) then
          [{ from_square := fromSq, to_square := toSq, promotion := some PieceType.queen },
           { from_square := fromSq, to_square := toSq, promotion := some PieceType.rook },
           { from_square := fromSq, to_square := toSq, promotion := some PieceType.bishop },
           { from_square := fromSq, to_square := toSq, promotion := some PieceType.knight }]
        else
          [{ from_square := fromSq, to_square := toSq, promotion := none }])
    else []

/-- The legal moves of a position (`Board.legal_moves` of the library; the
enumeration order of the model is not the library's, which no claim
depends on). -/
def legalMoves (b : Board) : List Move :=
  (List.range 64).flatMap (fun fromSq =>
    (candidateMoves b fromSq).filter (fun m =>
      pseudoLegalMove b m && !inCheck (pushMove b m) b.turn))

/-- python-chess `Board.is_check`. -/
def isCheck (b : Board) : Bool := inCheck b b.turn

/-- python-chess `Board.is_checkmate`: in check and no legal move. -/
def isCheckmate (b : Board) : Bool := isCheck b && (legalMoves b).isEmpty

/-- python-chess `Board.is_stalemate`: not in check and no legal move. -/
def isStalemate (b : Board) : Bool := !isCheck b && (legalMoves b).isEmpty

/-- python-chess `Board.has_insufficient_material(color)`. -/
def hasInsufficientMaterial (b : Board) (c : Color) : Bool :=
  let mine := (List.range 64).filterMap (fun sq =>
    match b.pieces sq with
    | some p => if p.color = c then some p.pieceType else none
    | none => none)
  let theirs := (List.range 64).filterMap (fun sq =>
    match b.pieces sq with
    | some p => if p.color = c.other then some p.pieceType else none
    | none => none)
  if mine.any (fun pt =>
      decide (pt = PieceType.pawn) || decide (pt = PieceType.rook) ||
      decide (pt = PieceType.queen)) then
    false
  else if mine.any (fun pt => pt = PieceType.knight) then
    decide (mine.length ≤ 2) &&
    !theirs.any (fun pt => decide (pt ≠ PieceType.king) && decide (pt ≠ PieceType.queen))
  else if mine.any (fun pt => pt = PieceType.bishop) then
    let allBishopSquares := (List.range 64).filterMap (fun sq =>
      match b.pieces sq with
      | some p => if p.pieceType = PieceType.bishop then some sq else none
      | none => none)
    (allBishopSquares.all (fun sq => (squareFile sq + squareRank sq) % 2 = 0) ||
     allBishopSquares.all (fun sq => (squareFile sq + squareRank sq) % 2 = 1)) &&
    !(List.range 64).any (fun sq =>
      match b.pieces sq with
      | some p => decide (p.pieceType = PieceType.pawn) || decide (p.pieceType = PieceType.knight)
      | none => false)
  else
    true

/-- python-chess `Board.is_insufficient_material`. -/
def isInsufficientMaterial (b : Board) : Bool :=
  hasInsufficientMaterial b Color.white && hasInsufficientMaterial b Color.black

/-- A board together with the stack of saved positions, as python-chess keeps
it: `Board.push` appends a snapshot of the current state before mutating,
`Board.pop` restores the most recent snapshot. -/
structure BoardSt where
  board : Board
  stack : List Board

/-- `Board.push` on the stacked board. -/
def pushSt (bs : BoardSt) (m : Move) : BoardSt :=
  { board := pushMove bs.board m, stack := bs.board :: bs.stack }

/-- `Board.push(chess.Move.null())` on the stacked board. -/
def pushNullSt (bs : BoardSt) : BoardSt :=
  { board := pushNull bs.board, stack := bs.board :: bs.stack }

/-- `Board.pop`: restore the last saved snapshot (identity on an empty
stack, where the library would raise). -/
def popSt (bs : BoardSt) : BoardSt :=
  match bs.stack with
  | [] => bs
  | s :: rest => { board := s, stack := rest }

/--
Stateful translation of `update_cle` (zobrist.py): the same computation as
`update_cle`, carried out on the stacked board the way the source performs
it — it reads the board, then pushes the move to diff the castling rights
and pops it again — and returning both the board as left behind by the call
and the new key.
-/
def update_cle_st (T : ZTables) (bs : BoardSt) (cle : Nat) (m : Move) : BoardSt × Nat :=
  match bs.board.pieces m.from_square with
  | none => (bs, cle)
  | some piece =>
    let piece_index := pieceIndex piece
    let cle :=
      match bs.board.ep with
      | some e => cle ^^^ T.ZE (squareFile e)
      | none => cle
    let cle := cle ^^^ T.ZP m.from_square piece_index
    let cle :=
      if isCapture bs.board m then
        let cap_sq :=
          if isEnPassant bs.board m then
            if piece.color = Color.white then m.to_square - 8 else m.to_square + 8
          else m.to_square
        match bs.board.pieces cap_sq with
        | some captured => cle ^^^ T.ZP cap_sq (pieceIndex captured)
        | none => cle
      else cle
    let cle :=
      if isCastling bs.board m then
        let rsq := castleRookSquares m
        match bs.board.pieces rsq.1 with
        | some rook => cle ^^^ T.ZP rsq.1 (pieceIndex rook) ^^^ T.ZP rsq.2 (pieceIndex rook)
        | none => cle
      else cle
    let cle :=
      match m.promotion with
      | some pt => cle ^^^ T.ZP m.to_square (pieceIndex { pieceType := pt, color := piece.color })
      | none => cle ^^^ T.ZP m.to_square piece_index
    let old := (bs.board.castleWK, bs.board.castleWQ, bs.board.castleBK, bs.board.castleBQ)
    let pushed := pushSt bs m
    let new := (pushed.board.castleWK, pushed.board.castleWQ,
                pushed.board.castleBK, pushed.board.castleBQ)
    let restored := popSt pushed
    let cle := if old.1 ≠ new.1 then cle ^^^ T.ZR 0 else cle
    let cle := if old.2.1 ≠ new.2.1 then cle ^^^ T.ZR 1 else cle
    let cle := if old.2.2.1 ≠ new.2.2.1 then cle ^^^ T.ZR 2 else cle
    let cle := if old.2.2.2 ≠ new.2.2.2 then cle ^^^ T.ZR 3 else cle
    let cle :=
      if piece.pieceType = PieceType.pawn then
        if squareRank m.from_square + 2 = squareRank m.to_square ∨
           squareRank m.to_square + 2 = squareRank m.from_square then
          cle ^^^ T.ZE (squareFile m.to_square)
        else cle
      else cle
    (restored, cle ^^^ T.ZT)

/-- Piece placement as a finite list (for decidable position comparison). -/
def piecesList (b : Board) : List (Option Piece) := (List.range 64).map b.pieces

/-- python-chess `Board.has_legal_en_passant`: the raw ep square is set and
some legal en-passant capture exists. -/
def hasLegalEp (b : Board) : Bool :=
  b.ep.isSome && (legalMoves b).any (fun m => isEnPassant b m)

/-- python-chess `Board._transposition_key`: placement, side to move,
castling rights, and the ep square when a legal ep capture exists. -/
def transKey (b : Board) :
    List (Option Piece) × Color × (Bool × Bool × Bool × Bool) × Option Nat :=
  (piecesList b, b.turn, (b.castleWK, b.castleWQ, b.castleBK, b.castleBQ),
   if hasLegalEp b then b.ep else none)

/-- python-chess `Board.is_irreversible` of the move leading from `prev` to
`cur`: a zeroing move (the new halfmove clock is 0), a reduction of the
castling rights, or a legal en-passant possibility in `prev`. -/
def irreversibleStep (prev cur : Board) : Bool :=
  decide (cur.halfmove = 0) ||
  decide ((prev.castleWK, prev.castleWQ, prev.castleBK, prev.castleBQ) ≠
          (cur.castleWK, cur.castleWQ, cur.castleBK, cur.castleBQ)) ||
  hasLegalEp prev

/-- Replay loop of python-chess `Board.is_repetition`: walk backwards
through the saved positions while the moves are reversible, decrementing
`count` at every position whose transposition key equals the current one
(the current position itself counts as the first occurrence). -/
def repWalk (key : List (Option Piece) × Color × (Bool × Bool × Bool × Bool) × Option Nat) :
    Board → List Board → Nat → Bool
  | _, _, 0 => true
  | _, _, 1 => true
  | cur, stack, count + 2 =>
    match stack with
    | [] => false
    | prev :: rest =>
      if irreversibleStep prev cur then false
      else repWalk key prev rest (if transKey prev = key then count + 1 else count + 2)

/-- python-chess `Board.is_repetition(count)` on the stacked board. -/
def isRepetition (bs : BoardSt) (count : Nat) : Bool :=
  repWalk (transKey bs.board) bs.board bs.stack count

/-- python-chess `Board.is_game_over()` (no draw claims): checkmate,
insufficient material, no legal move (stalemate), the seventy-five-move
rule, or fivefold repetition. -/
def isGameOver (bs : BoardSt) : Bool :=
  isCheckmate bs.board || isInsufficientMaterial bs.board ||
  (legalMoves bs.board).isEmpty ||
  (decide (150 ≤ bs.board.halfmove) && !(legalMoves bs.board).isEmpty) ||
  isRepetition bs 5

/--
The evaluation data loaded by gestion_memoire.load_memoire from
memoire.json.  Modelled from the spec: the data file is not part of the
repository sources, so the piece values (`VALEURS_PIECES`), the
piece-square tables (`TABLES_POSITION`) and the feature weights (`WEIGHTS`)
are left as parameters; every theorem below holds for all of them.
-/
structure EvalCtx where
  VP : PieceType → ℚ
  TB : PieceType → Nat → ℚ
  W : List (String × ℚ)

/-- Translation of `get_game_phase` (IA_LA_VRAIE.py): total non-king
non-pawn material of both sides against the three thresholds. -/
def get_game_phase (ctx : EvalCtx) (b : Board) : String :=
  let material : ℚ :=
    ((List.range 64).map (fun sq =>
      match b.pieces sq with
      | none => 0
      | some p =>
        if p.pieceType = PieceType.king ∨ p.pieceType = PieceType.pawn then 0
        else ctx.VP p.pieceType)).sum
  if 5800 ≤ material then "ouverture"
  else if 3200 ≤ material then "milieu"
  else if 1300 ≤ material then "fin"
  else "finfin"

/-- Translation of `get_position_value`: the tables are stored from White's
point of view, mirrored with XOR 56 for White. -/
def get_position_value (ctx : EvalCtx) (pt : PieceType) (square : Nat) (color : Color) : ℚ :=
  if color = Color.white then ctx.TB pt (square ^^^ 56) else ctx.TB pt square

/-- Squares of the pawns of one colour, in ascending square order. -/
def pawnsOf (b : Board) (c : Color) : List Nat :=
  (List.range 64).filter
    (fun sq => b.pieces sq = some { pieceType := PieceType.pawn, color := c })

/-- Squares of the rooks of one colour. -/
def rooksOf (b : Board) (c : Color) : List Nat :=
  (List.range 64).filter
    (fun sq => b.pieces sq = some { pieceType := PieceType.rook, color := c })

/-- Number of bishops of one colour. -/
def bishopCount (b : Board) (c : Color) : Nat :=
  ((List.range 64).filter
    (fun sq => b.pieces sq = some { pieceType := PieceType.bishop, color := c })).length

/-- Translation of `_feature_material`. -/
def featureMaterial (ctx : EvalCtx) (b : Board) : ℚ :=
  ((List.range 64).map (fun sq =>
    match b.pieces sq with
    | none => 0
    | some p => (if p.color = b.turn then 1 else -1) * ctx.VP p.pieceType)).sum

/-- Translation of `_feature_psqt`. -/
def featurePsqt (ctx : EvalCtx) (b : Board) : ℚ :=
  ((List.range 64).map (fun sq =>
    match b.pieces sq with
    | none => 0
    | some p =>
      (if p.color = b.turn then 1 else -1) * get_position_value ctx p.pieceType sq p.color)).sum

/-- Translation of `_feature_mobility`: the number of legal moves of the
side to move. -/
def featureMobility (b : Board) : ℚ := ((legalMoves b).length : ℚ)

/-- Translation of `_feature_pawn_structure`: doubled (-20), isolated (-15)
and passed pawns (phase-dependent bonus), summed with sign over both sides. -/
def featurePawnStructure (ctx : EvalCtx) (b : Board) : ℚ :=
  let phase := get_game_phase ctx b
  ([b.turn, b.turn.other].map (fun color =>
    let sign : ℚ := if color = b.turn then 1 else -1
    let pawns := pawnsOf b color
    let files_with_pawns := pawns.map squareFile
    ((pawns.map (fun sq =>
      let f := squareFile sq
      let r := squareRank sq
      let neighbors : List Int :=
        ([(f : Int) - 1, (f : Int) + 1]).filter (fun c' => 0 ≤ c' ∧ c' ≤ 7)
      let doubled : ℚ := if 1 < files_with_pawns.count f then -(sign * 20) else 0
      let isolated : ℚ :=
        if ¬ neighbors.any (fun c' => files_with_pawns.any (fun fw => (fw : Int) = c'))
        then -(sign * 15) else 0
      let enemy := pawnsOf b color.other
      let blocked := enemy.any (fun esq =>
        (decide ((squareFile esq : Int) = (f : Int)) ||
         neighbors.any (fun c' => (squareFile esq : Int) = c')) &&
        (match color with
         | .white => decide (r < squareRank esq)
         | .black => decide (squareRank esq < r)))
      let passed : ℚ :=
        if blocked then 0
        else
          let advance : ℚ := if color = Color.white then (r : ℚ) else ((7 - r : Nat) : ℚ)
          if phase = "fin" ∨ phase = "finfin" then sign * (20 + advance * 20)
          else sign * (10 + advance * 8)
      doubled + isolated + passed)).sum))).sum

/-- Non-king material of one colour (helper of `_feature_king_safety`). -/
def materialOfColor (ctx : EvalCtx) (b : Board) (c : Color) : ℚ :=
  ((List.range 64).map (fun sq =>
    match b.pieces sq with
    | none => 0
    | some p =>
      if p.color = c ∧ p.pieceType ≠ PieceType.king then ctx.VP p.pieceType else 0)).sum

/-- Translation of `_feature_king_safety`: pawn shield in the opening and
middlegame, king centralization and king proximity in the endgames. -/
def featureKingSafety (ctx : EvalCtx) (b : Board) : ℚ :=
  let phase := get_game_phase ctx b
  let king_w := kingSquare b.pieces Color.white
  let king_b := kingSquare b.pieces Color.black
  ([b.turn, b.turn.other].map (fun color =>
    let sign : ℚ := if color = b.turn then 1 else -1
    match kingSquare b.pieces color with
    | none => 0
    | some king_sq =>
      let kf := squareFile king_sq
      let kr := squareRank king_sq
      if phase = "ouverture" ∨ phase = "milieu" then
        let shield_ranks : List Int :=
          match color with
          | .white => [(kr : Int) + 1, (kr : Int) + 2]
          | .black => [(kr : Int) - 1, (kr : Int) - 2]
        let shield_files : List Int :=
          ([(kf : Int) - 1, (kf : Int), (kf : Int) + 1]).filter (fun f => 0 ≤ f ∧ f ≤ 7)
        let shield := ((pawnsOf b color).filter (fun sq =>
          shield_files.any (fun f => (squareFile sq : Int) = f) &&
          shield_ranks.any (fun r => (squareRank sq : Int) = r))).length
        let shieldMalus : ℚ := -(sign * (((3 - min shield 3 : Nat) : ℚ) * 18))
        shieldMalus
      else
        let center_dist : ℚ := |(kf : ℚ) - 3.5| + |(kr : ℚ) - 3.5|
        let base : ℚ := sign * ((Rat.floor ((7 - center_dist) * 8) : ℤ) : ℚ)
        match king_w, king_b with
        | some kw, some kb =>
          let enemy_king := match color with | .white => kb | .black => kw
          let ekf := squareFile enemy_king
          let ekr := squareRank enemy_king
          let dist_kings : ℚ :=
            ((((kf : Int) - (ekf : Int)).natAbs : ℚ)) + ((((kr : Int) - (ekr : Int)).natAbs : ℚ))
          let my_material := materialOfColor ctx b color
          let enemy_material := materialOfColor ctx b color.other
          if enemy_material ≤ my_material then base + sign * (14 - dist_kings) * 5
          else base + sign * dist_kings * 3
        | _, _ => base)).sum

/-- Translation of `_feature_rook_open_file`: +20 per rook on an open file,
+10 on a half-open file, signed. -/
def featureRookOpenFile (b : Board) : ℚ :=
  ([b.turn, b.turn.other].map (fun color =>
    let sign : ℚ := if color = b.turn then 1 else -1
    ((rooksOf b color).map (fun sq =>
      let f := squareFile sq
      let own_pawn_on_f := (pawnsOf b color).any (fun p => squareFile p = f)
      let enemy_pawn_on_f := (pawnsOf b color.other).any (fun p => squareFile p = f)
      if !own_pawn_on_f && !enemy_pawn_on_f then sign * 20
      else if !own_pawn_on_f then sign * 10
      else 0)).sum)).sum

/-- Translation of `_feature_bishop_pair`: +30 for a side with two or more
bishops, signed. -/
def featureBishopPair (b : Board) : ℚ :=
  ([b.turn, b.turn.other].map (fun color =>
    let sign : ℚ := if color = b.turn then 1 else -1
    if 2 ≤ bishopCount b color then sign * 30 else 0)).sum

/-- The feature registry `FEATURE_FUNCTIONS` of IA_LA_VRAIE.py, in source
order. -/
def featureRegistry (ctx : EvalCtx) : List (String × (Board → ℚ)) :=
  [("material", featureMaterial ctx),
   ("psqt", featurePsqt ctx),
   ("mobility", featureMobility),
   ("pawn_structure", featurePawnStructure ctx),
   ("king_safety", featureKingSafety ctx),
   ("rook_open_file", featureRookOpenFile),
   ("bishop_pair", featureBishopPair)]

/-- Is a feature key present in the weight mapping? -/
def wContains (W : List (String × ℚ)) (k : String) : Bool := W.any (fun kv => kv.1 = k)

/-- `WEIGHTS.get(k, 1.0)`. -/
def wGet (W : List (String × ℚ)) (k : String) : ℚ :=
  ((W.find? (fun kv => kv.1 = k)).map (fun kv => kv.2)).getD 1

/-- Translation of `extract_features`: compute exactly the registered
features whose key occurs in the weight mapping. -/
def extract_features (ctx : EvalCtx) (b : Board) : List (String × ℚ) :=
  ((featureRegistry ctx).filter (fun kv => wContains ctx.W kv.1)).map
    (fun kv => (kv.1, kv.2 b))

/-- Translation of `evaluate` (IA_LA_VRAIE.py): terminal cases first
(checkmate -100000, stalemate or insufficient material 0, repetition
penalty by phase), otherwise the weighted feature sum. -/
def evaluate (ctx : EvalCtx) (bs : BoardSt) : ℚ :=
  if isCheckmate bs.board then -100000
  else if isStalemate bs.board || isInsufficientMaterial bs.board then 0
  else if isRepetition bs 2 then
    let phase := get_game_phase ctx bs.board
    if phase = "fin" ∨ phase = "finfin" then -200 else -80
  else
    ((extract_features ctx bs.board).map (fun kv => wGet ctx.W kv.1 * kv.2)).sum

/-- Search scores: the source works with Python floats including
`float('inf')`; every finite value it manipulates is exact, so scores are
rationals extended with the two infinities. -/
inductive Score where
  | negInf
  | val (q : ℚ)
  | posInf
deriving DecidableEq

/-- Negation of a score. -/
def Score.neg : Score → Score
  | negInf => posInf
  | val q => val (-q)
  | posInf => negInf

/-- Order on scores. -/
def Score.le : Score → Score → Bool
  | negInf, _ => true
  | val _, negInf => false
  | val x, val y => decide (x ≤ y)
  | val _, posInf => true
  | posInf, posInf => true
  | posInf, _ => false

def Score.lt (a b : Score) : Bool := !Score.le b a

/-- `max` as Python computes it on floats. -/
def Score.max (a b : Score) : Score := if Score.le a b then b else a

/-- `min` as Python computes it on floats. -/
def Score.min (a b : Score) : Score := if Score.le a b then a else b

/-- Add a rational to a score (used for the null window `-beta + 1`;
infinities absorb as in float arithmetic). -/
def Score.addQ : Score → ℚ → Score
  | negInf, _ => negInf
  | val q, x => val (q + x)
  | posInf, _ => posInf

/-- Flag EXACT of IA_LA_VRAIE.py. -/
def EXACT : Nat := 0

/-- Flag LOWERBOUND of IA_LA_VRAIE.py. -/
def LOWERBOUND : Nat := 1

/-- Flag UPPERBOUND of IA_LA_VRAIE.py. -/
def UPPERBOUND : Nat := 2

/-- A transposition-table entry: the fields of the dict stored by the
search.  The `move` field is kept by `update_TT` and absent (here `none`)
in the entries the search itself stores. -/
structure TTEntry where
  score : Score
  profondeur : Nat
  move : Option Move
  flag : Nat
deriving DecidableEq

/-- The transposition table: a dictionary keyed by the Zobrist hash
(`creer_TT` returns it empty). -/
abbrev TTable := List (Nat × TTEntry)

/-- Translation of `creer_TT`. -/
def creer_TT : TTable := []

/-- Dictionary lookup `TT[cle]` / `cle in TT`. -/
def ttLookup (tt : TTable) (k : Nat) : Option TTEntry :=
  (tt.find? (fun e => e.1 = k)).map (fun e => e.2)

/-- Dictionary assignment `TT[cle] = entry` (insert or overwrite). -/
def ttSet (tt : TTable) (k : Nat) (e : TTEntry) : TTable :=
  (k, e) :: tt.filter (fun x => x.1 ≠ k)

/-- Translation of `update_TT` (zobrist.py): write the entry only when the
key is absent or the existing entry has strictly smaller depth. -/
def update_TT (TT : TTable) (cle : Nat) (evaluation : Score) (move : Option Move)
    (profondeur : Nat) (flag : Nat) : TTable :=
  match ttLookup TT cle with
  | none => ttSet TT cle { score := evaluation, profondeur := profondeur, move := move, flag := flag }
  | some entry =>
    if entry.profondeur < profondeur then
      ttSet TT cle { score := evaluation, profondeur := profondeur, move := move, flag := flag }
    else TT

/-- Translation of `mvv_lva` (IA_LA_VRAIE.py): `10 * value(victim) -
value(attacker)` for captures, 0 otherwise, with the source's fallback
value 100 for an empty square. -/
def mvv_lva (ctx : EvalCtx) (b : Board) (m : Move) : ℚ :=
  if isCapture b m then
    let v : ℚ :=
      match b.pieces m.to_square with
      | some victim => ctx.VP victim.pieceType
      | none => 100
    let a : ℚ :=
      match b.pieces m.from_square with
      | some attacker => ctx.VP attacker.pieceType
      | none => 100
    10 * v - a
  else 0

/-- Stable descending sort by a rational key: the semantics of Python's
`sorted(el, key=key, reverse=True)` (ties keep the original order). -/
def insDesc (key : α → ℚ) (x : α) : List α → List α
  | [] => [x]
  | y :: l => if key y ≤ key x then x :: y :: l else y :: insDesc key x l

def sortByDesc (key : α → ℚ) (l : List α) : List α := l.foldr (insDesc key) []

/-- Outcome of the stand-pat phase plus the `max_depth == 0` early return of
`quiescence`: the path taken at exhausted depth, with no recursion. -/
def quiescenceZero (ctx : EvalCtx) (bs : BoardSt) (alpha beta : Score) : Score :=
  let stand_pat := Score.val (evaluate ctx bs)
  if beta.le stand_pat then beta
  else
    let alpha := if alpha.lt stand_pat then stand_pat else alpha
    alpha

/-- One unfolding of `quiescence` (IA_LA_VRAIE.py) at positive remaining
depth: stand-pat, then the MVV-LVA-ordered capture loop, recursing through
`recur` (the quiescence at the next smaller depth) with the negated window,
returning `beta` on a fail-high. -/
def quiescenceStep (ctx : EvalCtx) (recur : BoardSt → Score → Score → Score)
    (bs : BoardSt) (alpha beta : Score) : Score :=
  let stand_pat := Score.val (evaluate ctx bs)
  if beta.le stand_pat then beta
  else
    let alpha := if alpha.lt stand_pat then stand_pat else alpha
    let captures := sortByDesc (fun m => mvv_lva ctx bs.board m)
      ((legalMoves bs.board).filter (fun m => isCapture bs.board m))
    let r := captures.foldl (fun st mv =>
      match st with
      | Sum.inl done => Sum.inl done
      | Sum.inr alpha =>
        let score := (recur (pushSt bs mv) beta.neg alpha.neg).neg
        if beta.le score then Sum.inl beta
        else Sum.inr (if alpha.lt score then score else alpha)) (Sum.inr alpha)
    match r with
    | Sum.inl s => s
    | Sum.inr a => a

/-- Translation of `quiescence` (IA_LA_VRAIE.py), indexed by the remaining
depth `max_depth` (default 5 at the call site in `alpha_beta`); each
recursive call decreases it by one. -/
def quiescence (ctx : EvalCtx) (fuel : Nat) : BoardSt → Score → Score → Score :=
  Nat.rec (motive := fun _ => BoardSt → Score → Score → Score)
    (quiescenceZero ctx) (fun _ ih => quiescenceStep ctx ih) fuel

/-- History table of the search: `(colour, from, to) → accumulated score`. -/
def histGet (h : List ((Color × Nat × Nat) × ℚ)) (k : Color × Nat × Nat) : ℚ :=
  ((h.find? (fun kv => kv.1 = k)).map (fun kv => kv.2)).getD 0

def histSet (h : List ((Color × Nat × Nat) × ℚ)) (k : Color × Nat × Nat) (v : ℚ) :
    List ((Color × Nat × Nat) × ℚ) :=
  (k, v) :: h.filter (fun kv => kv.1 ≠ k)

/-- Killer list at one depth (`killers[depth]`). -/
def killersGet (ks : List (List Move)) (d : Nat) : List Move := ks.getD d []

def killersSet (ks : List (List Move)) (d : Nat) (v : List Move) : List (List Move) :=
  ks.set d v

/-- `killers[depth].add(move)` followed by the size-2 cap.  The source set
pops an arbitrary element on overflow; the model drops the oldest. -/
def killerAdd (ks : List Move) (m : Move) : List Move :=
  let ks' := if m ∈ ks then ks else m :: ks
  if 2 < ks'.length then ks'.dropLast else ks'

/-- Mutable state threaded through the search: the transposition table, the
killer lists and the history table. -/
structure SearchState where
  tt : TTable
  killers : List (List Move)
  history : List ((Color × Nat × Nat) × ℚ)
deriving DecidableEq

/-- Result of the transposition-table probe at the head of `alpha_beta`
(IA_LA_VRAIE.py, lines 734-744): either an immediate return or the
possibly narrowed window. -/
inductive ProbeOut where
  | ret (s : Score)
  | cont (alpha beta : Score)
deriving DecidableEq

/-- The probe itself: with a stored depth at least the remaining depth, an
EXACT entry returns its score, a LOWERBOUND entry raises alpha, an
UPPERBOUND entry lowers beta, and a now-empty window returns the stored
score; anything else (no entry, or a shallower entry) leaves the window
unchanged. -/
def ttProbeStep (tt : TTable) (cle : Nat) (depth : Nat) (alpha beta : Score) : ProbeOut :=
  match ttLookup tt cle with
  | none => ProbeOut.cont alpha beta
  | some entry =>
    if depth ≤ entry.profondeur then
      if entry.flag = EXACT then ProbeOut.ret entry.score
      else
        let alpha := if entry.flag = LOWERBOUND then Score.max alpha entry.score else alpha
        let beta := if entry.flag = UPPERBOUND then Score.min beta entry.score else beta
        if beta.le alpha then ProbeOut.ret entry.score
        else ProbeOut.cont alpha beta
    else ProbeOut.cont alpha beta

/-- Does the side to move own a knight, bishop, rook or queen (the
zugzwang guard of the null-move condition)? -/
def hasMinorOrMajor (b : Board) (c : Color) : Bool :=
  [PieceType.knight, PieceType.bishop, PieceType.rook, PieceType.queen].any (fun pt =>
    (List.range 64).any (fun sq => b.pieces sq = some { pieceType := pt, color := c }))

/-- The null-move-pruning guard of `alpha_beta` (R = 2): null move allowed,
`depth >= R + 1`, not in check, and at least one minor or major piece. -/
def nmpGuard (b : Board) (depth : Nat) (null_allowed : Bool) : Bool :=
  null_allowed && decide (2 + 1 ≤ depth) && !isCheck b && hasMinorOrMajor b b.turn

/-- Translation of `move_priority` (the ordering closure inside
`alpha_beta`): MVV-LVA, +5000 for captures, +4000 plus the piece value for
promotions, +2000 for killers of this depth, plus the history score. -/
def move_priority (ctx : EvalCtx) (b : Board) (killers_d : List Move)
    (history : List ((Color × Nat × Nat) × ℚ)) (m : Move) : ℚ :=
  let s := mvv_lva ctx b m
  let s := if isCapture b m then s + 5000 else s
  let s :=
    match m.promotion with
    | some pt => s + (ctx.VP pt + 4000)
    | none => s
  let s := if m ∈ killers_d then s + 2000 else s
  s + histGet history (b.turn, m.from_square, m.to_square)

/-- Accumulator of the move loop of `alpha_beta`. -/
structure ABLoop where
  best : Score
  alpha : Score
  st : SearchState
  done : Bool

/-- The move loop and final store of `alpha_beta` (IA_LA_VRAIE.py, lines
764-812): order the legal moves, search each child through `recur` with the
negated window and the incrementally updated key, track the best score,
raise alpha (crediting the history of a quiet move), cut off (recording a
quiet killer), and finally store `(best_score, depth, flag)` for the key by
direct dictionary assignment. -/
def abMoveLoop (ctx : EvalCtx) (T : ZTables)
    (recur : SearchState → BoardSt → Nat → Score → Score → Nat → Bool → Score × SearchState)
    (st : SearchState) (bs : BoardSt) (depth : Nat) (alpha beta : Score) (cle : Nat) :
    Score × SearchState :=
  let original_alpha := alpha
  let killers_d := killersGet st.killers depth
  let moves := sortByDesc (move_priority ctx bs.board killers_d st.history) (legalMoves bs.board)
  let final := moves.foldl (fun (acc : ABLoop) mv =>
    if acc.done then acc
    else
      let new_cle := update_cle T bs.board cle mv
      let r := recur acc.st (pushSt bs mv) (depth - 1) beta.neg acc.alpha.neg new_cle true
      let score := r.1.neg
      let st1 := r.2
      let best' := if acc.best.lt score then score else acc.best
      let raised := acc.alpha.lt score
      let st2 :=
        if raised && !isCapture bs.board mv then
          let key := (bs.board.turn, mv.from_square, mv.to_square)
          let hval := histGet st1.history key + ((depth * depth : Nat) : ℚ)
          { st1 with history := histSet st1.history key hval }
        else st1
      let alpha' := if raised then score else acc.alpha
      if beta.le alpha' then
        let st3 :=
          if !isCapture bs.board mv then
            let ks' := killerAdd (killersGet st2.killers depth) mv
            { st2 with killers := killersSet st2.killers depth ks' }
          else st2
        { best := best', alpha := alpha', st := st3, done := true }
      else { best := best', alpha := alpha', st := st2, done := false })
    { best := Score.negInf, alpha := alpha, st := st, done := false }
  let flag :=
    if final.best.le original_alpha then UPPERBOUND
    else if beta.le final.best then LOWERBOUND
    else EXACT
  let tt' := ttSet final.st.tt cle
    { score := final.best, profondeur := depth, move := none, flag := flag }
  (final.best, { final.st with tt := tt' })

/--
One unfolding of `alpha_beta` (IA_LA_VRAIE.py): terminal positions are
evaluated, then the transposition table is probed, depth 0 falls to the
quiescence (with its default depth 5), the null move is tried under
`nmpGuard` with reduction R = 2 — recursing through `recur` on the
null-pushed board with depth `depth - R - 1`, window `(-beta, -beta + 1)`,
key `cle XOR ZT` and null disallowed, returning `beta` on a fail-high —
and otherwise the move loop runs.
-/
def abBody (ctx : EvalCtx) (T : ZTables)
    (recur : SearchState → BoardSt → Nat → Score → Score → Nat → Bool → Score × SearchState)
    (st : SearchState) (bs : BoardSt) (depth : Nat) (alpha beta : Score) (cle : Nat)
    (null_allowed : Bool) : Score × SearchState :=
  if isGameOver bs then (Score.val (evaluate ctx bs), st)
  else
    match ttProbeStep st.tt cle depth alpha beta with
    | ProbeOut.ret s => (s, st)
    | ProbeOut.cont alpha beta =>
      if depth = 0 then (quiescence ctx 5 bs alpha beta, st)
      else if nmpGuard bs.board depth null_allowed then
        let null_cle := cle ^^^ T.ZT
        let r := recur st (pushNullSt bs) (depth - 2 - 1) beta.neg (beta.neg.addQ 1) null_cle false
        let null_score := r.1.neg
        if beta.le null_score then (beta, r.2)
        else abMoveLoop ctx T recur r.2 bs depth alpha beta cle
      else abMoveLoop ctx T recur st bs depth alpha beta cle

/-- `alpha_beta` as a fuel-indexed family: the recursion of the source
decreases `depth` at every recursive call, so running the body with any
fuel exceeding `depth` computes the source's recursion; the fuel-exhausted
branch is unreachable from `alpha_beta` below. -/
def alphaBetaFuel (ctx : EvalCtx) (T : ZTables) (fuel : Nat) :
    SearchState → BoardSt → Nat → Score → Score → Nat → Bool → Score × SearchState :=
  Nat.rec
    (motive := fun _ =>
      SearchState → BoardSt → Nat → Score → Score → Nat → Bool → Score × SearchState)
    (fun st _ _ _ _ _ _ => (Score.negInf, st))
    (fun _ ih => abBody ctx T ih)
    fuel

/-- Translation of `alpha_beta` (IA_LA_VRAIE.py). -/
def alpha_beta (ctx : EvalCtx) (T : ZTables) (st : SearchState) (bs : BoardSt) (depth : Nat)
    (alpha beta : Score) (cle : Nat) (null_allowed : Bool) : Score × SearchState :=
  alphaBetaFuel ctx T (depth + 1) st bs depth alpha beta cle null_allowed

/-- WEIGHT_CLAMP of gestion_memoire.py. -/
def WEIGHT_CLAMP : ℚ := 50

/-- DEFAULT_WEIGHTS of gestion_memoire.py. -/
def DEFAULT_WEIGHTS : List (String × ℚ) :=
  [("material", 1), ("psqt", 1), ("mobility", 0.1), ("pawn_structure", 1),
   ("king_safety", 1), ("rook_open_file", 1), ("bishop_pair", 1)]

/-- Translation of `_sane_weights` (gestion_memoire.py): if any weight
exceeds WEIGHT_CLAMP in absolute value, the whole mapping is replaced by
DEFAULT_WEIGHTS; otherwise the mapping is returned unchanged. -/
def sane_weights (w : List (String × ℚ)) : List (String × ℚ) :=
  if w.any (fun kv => decide (WEIGHT_CLAMP < |kv.2|)) then DEFAULT_WEIGHTS else w

/-- The per-weight clamp `max(-WEIGHT_CLAMP, min(WEIGHT_CLAMP, v))` applied
by `save_memoire`. -/
def clampWeight (v : ℚ) : ℚ := max (-WEIGHT_CLAMP) (min WEIGHT_CLAMP v)

/-- The `weights_to_save` mapping of `save_memoire` (gestion_memoire.py):
every weight individually clamped before being written. -/
def weights_to_save (w : List (String × ℚ)) : List (String × ℚ) :=
  w.map (fun kv => (kv.1, clampWeight kv.2))

/-! Concrete fixtures used by the witness and counterexample theorems. -/

/-- Build a piece-placement function from an association list. -/
def boardOfList (l : List (Nat × Piece)) : Nat → Option Piece :=
  fun sq => (l.find? (fun kv => kv.1 = sq)).map (fun kv => kv.2)

def wPawn : Piece := { pieceType := PieceType.pawn, color := Color.white }
def wRook : Piece := { pieceType := PieceType.rook, color := Color.white }
def wKnight : Piece := { pieceType := PieceType.knight, color := Color.white }
def wKing : Piece := { pieceType := PieceType.king, color := Color.white }
def bKing : Piece := { pieceType := PieceType.king, color := Color.black }
def bKnight : Piece := { pieceType := PieceType.knight, color := Color.black }

/-- Sample Zobrist tables (any values work; these make collisions visible). -/
def sampleT : ZTables :=
  { ZP := fun sq idx => 64 * sq + idx + 1
    ZR := fun i => 10000 + i
    ZE := fun f => 20000 + 2 ^ f
    ZT := 31415 }

/-- A sample evaluation context with no enabled features. -/
def sampleCtx : EvalCtx := { VP := fun _ => 0, TB := fun _ _ => 0, W := [] }

/-- Kings on e1/e8 with a white pawn on e2, White to move. -/
def pawnBoard : Board :=
  { pieces := boardOfList [(4, wKing), (60, bKing), (12, wPawn)]
    turn := Color.white
    castleWK := false, castleWQ := false, castleBK := false, castleBQ := false
    ep := none, halfmove := 0, fullmove := 1 }

/-- A position with an en-passant square (after a double push of the e-pawn
to e4): kings on e1/e8, white pawn e4, Black to move, ep square e3. -/
def epBoard : Board :=
  { pieces := boardOfList [(4, wKing), (60, bKing), (28, wPawn)]
    turn := Color.black
    castleWK := false, castleWQ := false, castleBK := false, castleBQ := false
    ep := some 20, halfmove := 0, fullmove := 1 }

/-- White king a1 and pawn a3 against king h8; quiet, not game over. -/
def quietBoard : Board :=
  { pieces := boardOfList [(0, wKing), (16, wPawn), (63, bKing)]
    turn := Color.white
    castleWK := false, castleWQ := false, castleBK := false, castleBQ := false
    ep := none, halfmove := 0, fullmove := 1 }

/-- White king a1 and rook a3 against king h8 (null-move guard holds). -/
def rookBoard : Board :=
  { pieces := boardOfList [(0, wKing), (16, wRook), (63, bKing)]
    turn := Color.white
    castleWK := false, castleWQ := false, castleBK := false, castleBQ := false
    ep := none, halfmove := 0, fullmove := 1 }

/-- White checkmated: king a1, black queen b2 defended by king b3. -/
def mateBoard : Board :=
  { pieces := boardOfList [(0, wKing),
      (9, { pieceType := PieceType.queen, color := Color.black }), (17, bKing)]
    turn := Color.white
    castleWK := false, castleWQ := false, castleBK := false, castleBQ := false
    ep := none, halfmove := 0, fullmove := 1 }

/-- White stalemated: king a1, black queen b3, black king d5. -/
def staleBoard : Board :=
  { pieces := boardOfList [(0, wKing),
      (17, { pieceType := PieceType.queen, color := Color.black }), (35, bKing)]
    turn := Color.white
    castleWK := false, castleWQ := false, castleBK := false, castleBQ := false
    ep := none, halfmove := 0, fullmove := 1 }

/-- Bare kings: insufficient material. -/
def kkBoard : Board :=
  { pieces := boardOfList [(20, wKing), (36, bKing)]
    turn := Color.white
    castleWK := false, castleWQ := false, castleBK := false, castleBQ := false
    ep := none, halfmove := 0, fullmove := 1 }

/-- Kings e1/e8 and knights g1/g8, with given side to move and halfmove
clock (the repetition witness walks knight moves out and back). -/
def knightsBoard (knightW knightB : Nat) (t : Color) (hm : Nat) : Board :=
  { pieces := boardOfList [(4, wKing), (60, bKing), (knightW, wKnight), (knightB, bKnight)]
    turn := t
    castleWK := false, castleWQ := false, castleBK := false, castleBQ := false
    ep := none, halfmove := hm, fullmove := 1 }

/-- The stacked position after Nf3 Nf6 Ng1 Ng8 from `knightsBoard 6 62`:
the current position repeats the bottom of the stack. -/
def repState : BoardSt :=
  { board := knightsBoard 6 62 Color.white 4
    stack := [knightsBoard 6 45 Color.black 3, knightsBoard 21 45 Color.white 2,
              knightsBoard 21 62 Color.black 1, knightsBoard 6 62 Color.white 0] }

/-- An evaluation context whose knight value pushes the phase to the
opening threshold. -/
def bigKnightCtx : EvalCtx :=
  { VP := fun pt => if pt = PieceType.knight then 3000 else 0
    TB := fun _ _ => 0
    W := [] }

/-- A search state whose table holds a depth-5 lower-bound entry for the
key 42. -/
def seededState : SearchState :=
  { tt := [(42, { score := Score.val 0, profondeur := 5, move := none,
                  flag := LOWERBOUND })]
    killers := [[], [], []]
    history := [] }

/-- The empty search state. -/
def emptyState : SearchState := { tt := [], killers := [[], [], [], [], []], history := [] }

/-- An en-passant position where the null-move guard holds: kings e1/e8,
white pawn e4, black rook a8, Black to move, ep square e3. -/
def epRookBoard : Board :=
  { pieces := boardOfList [(4, wKing), (60, bKing), (28, wPawn),
      (56, { pieceType := PieceType.rook, color := Color.black })]
    turn := Color.black
    castleWK := false, castleWQ := false, castleBK := false, castleBQ := false
    ep := some 20, halfmove := 0, fullmove := 1 }

/-- A marker entry used to observe which key the search hands to the
null-move recursion. -/
def markEntry : TTEntry :=
  { score := Score.val 0, profondeur := 0, move := none, flag := EXACT }

/-- A recursion stub that records the key it receives in the table and
fails low, forcing the null-move cutoff. -/
def markRecur : SearchState → BoardSt → Nat → Score → Score → Nat → Bool →
    Score × SearchState :=
  fun st _ _ _ _ k _ => (Score.negInf, { st with tt := [(k, markEntry)] })

/-! XOR toolkit for the hash proofs. -/

/-- XOR-sum of a function over a list of squares. -/
def xorSum (f : Nat → Nat) : List Nat → Nat
  | [] => 0
  | a :: l => f a ^^^ xorSum f l

theorem natXorLeftComm (a b c : Nat) : a ^^^ (b ^^^ c) = b ^^^ (a ^^^ c) := by
  rw [← Nat.xor_assoc, Nat.xor_comm a b, Nat.xor_assoc]

theorem foldl_xor_eq_xorSum (f : Nat → Nat) (l : List Nat) (h : Nat) :
    l.foldl (fun acc sq => acc ^^^ f sq) h = h ^^^ xorSum f l := by
  induction l generalizing h with
  | nil => simp [xorSum]
  | cons a t ih => simp [xorSum, ih, Nat.xor_assoc]

theorem xorSum_congr {f g : Nat → Nat} (l : List Nat) (h : ∀ a ∈ l, f a = g a) :
    xorSum f l = xorSum g l := by
  induction l with
  | nil => rfl
  | cons a t ih =>
    simp only [xorSum, h a (List.mem_cons_self a t), ih (fun x hx => h x (List.mem_cons_of_mem a hx))]

theorem xorSum_update (g : Nat → Nat) (i x : Nat) (l : List Nat) (hnd : l.Nodup) (hi : i ∈ l) :
    xorSum (fun a => if a = i then x else g a) l = xorSum g l ^^^ g i ^^^ x := by
  induction l with
  | nil => cases hi
  | cons a t ih =>
    rcases List.mem_cons.mp hi with rfl | hit
    · have hnotin : i ∉ t := (List.nodup_cons.mp hnd).1
      have hcg : xorSum (fun b => if b = i then x else g b) t = xorSum g t :=
        xorSum_congr t (fun b hb => by
          have hba : b ≠ i := fun hh => hnotin (hh ▸ hb)
          simp [hba])
      simp only [xorSum, if_pos rfl, hcg]
      simp [Nat.xor_assoc, Nat.xor_comm, natXorLeftComm, Nat.xor_cancel_left, Nat.xor_self]
    · have hai : a ≠ i := by
        rintro rfl
        exact (List.nodup_cons.mp hnd).1 hit
      simp only [xorSum, if_neg hai, ih (List.nodup_cons.mp hnd).2 hit]
      simp [Nat.xor_assoc, Nat.xor_comm, natXorLeftComm, Nat.xor_cancel_left, Nat.xor_self]

theorem piecesHash_eq_xorSum (T : ZTables) (f : Nat → Option Piece) :
    piecesHash T f = xorSum (fun sq => pieceKey T sq (f sq)) (List.range 64) := by
  unfold piecesHash
  rw [foldl_xor_eq_xorSum, Nat.zero_xor]

/-- Replacing the content of one square XORs out the old key and XORs in
the new one. -/
theorem piecesHash_update (T : ZTables) (f : Nat → Option Piece) (i : Nat) (v : Option Piece)
    (hi : i < 64) :
    piecesHash T (Function.update f i v)
      = piecesHash T f ^^^ pieceKey T i (f i) ^^^ pieceKey T i v := by
  rw [piecesHash_eq_xorSum, piecesHash_eq_xorSum]
  have hfun : (fun sq => pieceKey T sq (Function.update f i v sq))
      = fun sq => if sq = i then pieceKey T i v else pieceKey T sq (f sq) := by
    funext sq
    by_cases h : sq = i
    · subst h; simp
    · simp [Function.update_apply, h]
  rw [hfun]
  exact xorSum_update _ i _ _ (List.nodup_range 64) (List.mem_range.mpr hi)

/-- Rewriting of the conditional XORs of `update_cle` into mask form. -/
theorem xor_ite (c : Prop) [Decidable c] (y k : Nat) :
    (if c then y ^^^ k else y) = y ^^^ (if c then k else 0) := by
  split <;> simp

/-- The en-passant removal step of `update_cle` in mask form. -/
theorem epOut_eq (T : ZTables) (x : Nat) (o : Option Nat) :
    (match o with
     | some e => x ^^^ T.ZE (squareFile e)
     | none => x) = x ^^^ epHash T o := by
  cases o <;> simp [epHash]

/-- One castling-right bit of the new position in toggle form. -/
theorem castle_toggle (k : Nat) (o n : Bool) :
    (if n then k else 0) = (if o then k else 0) ^^^ (if o ≠ n then k else 0) := by
  cases o <;> cases n <;> simp

/-- The castling component of the hash of any successor position equals the
old component XORed with the per-right change masks. -/
theorem castleHash_toggle (T : ZTables) (b b' : Board) :
    castleHash T b' = castleHash T b
      ^^^ ((if b.castleWK ≠ b'.castleWK then T.ZR 0 else 0)
      ^^^ (if b.castleWQ ≠ b'.castleWQ then T.ZR 1 else 0)
      ^^^ (if b.castleBK ≠ b'.castleBK then T.ZR 2 else 0)
      ^^^ (if b.castleBQ ≠ b'.castleBQ then T.ZR 3 else 0)) := by
  unfold castleHash
  rw [castle_toggle (T.ZR 0) b.castleWK b'.castleWK,
      castle_toggle (T.ZR 1) b.castleWQ b'.castleWQ,
      castle_toggle (T.ZR 2) b.castleBK b'.castleBK,
      castle_toggle (T.ZR 3) b.castleBQ b'.castleBQ]
  simp [Nat.xor_assoc, Nat.xor_comm, natXorLeftComm]

/-- The side-to-move component flips by the side key at every move. -/
theorem turnHash_other (T : ZTables) (c : Color) :
    turnHash T c.other = turnHash T c ^^^ T.ZT := by
  cases c <;> simp [turnHash, Color.other, Nat.zero_xor, Nat.xor_self]

/-- Piece component of a simple move (mover leaves `a`, arrival lands on
`b'`): the keys of the two touched squares are exchanged. -/
theorem piecesHash_move (T : ZTables) (f : Nat → Option Piece) (a b' : Nat) (v : Option Piece)
    (ha : a < 64) (hb : b' < 64) (hab : a ≠ b') :
    piecesHash T (Function.update (Function.update f a none) b' v)
      = piecesHash T f ^^^ pieceKey T a (f a) ^^^ pieceKey T b' (f b') ^^^ pieceKey T b' v := by
  rw [piecesHash_update T _ b' v hb, piecesHash_update T f a none ha,
      Function.update_noteq (Ne.symm hab)]
  simp [pieceKey, Nat.xor_assoc]

/-- Piece component of an en-passant capture (mover leaves `a`, captured
pawn leaves `c'`, mover lands on `t`). -/
theorem piecesHash_ep (T : ZTables) (f : Nat → Option Piece) (a c' t : Nat) (v : Option Piece)
    (ha : a < 64) (hc : c' < 64) (ht : t < 64)
    (hac : a ≠ c') (hat : a ≠ t) (hct : c' ≠ t) :
    piecesHash T
      (Function.update (Function.update (Function.update f a none) c' none) t v)
      = piecesHash T f ^^^ pieceKey T a (f a) ^^^ pieceKey T c' (f c')
        ^^^ pieceKey T t (f t) ^^^ pieceKey T t v := by
  rw [piecesHash_update T _ t v ht, piecesHash_update T _ c' none hc,
      piecesHash_update T f a none ha,
      Function.update_noteq (Ne.symm hct), Function.update_noteq (Ne.symm hat),
      Function.update_noteq (Ne.symm hac)]
  simp [pieceKey, Nat.xor_assoc]

/-- Piece component of a castling move (king leaves `e`, rook leaves `h'`,
king lands on `g`, rook lands on `f'`). -/
theorem piecesHash_castle (T : ZTables) (f : Nat → Option Piece) (e h' g f' : Nat)
    (vK vR : Option Piece)
    (he : e < 64) (hh : h' < 64) (hg : g < 64) (hf : f' < 64)
    (heh : e ≠ h') (heg : e ≠ g) (hef : e ≠ f') (hhg : h' ≠ g) (hhf : h' ≠ f') (hgf : g ≠ f') :
    piecesHash T
      (Function.update
        (Function.update (Function.update (Function.update f e none) h' none) g vK) f' vR)
      = piecesHash T f ^^^ pieceKey T e (f e) ^^^ pieceKey T h' (f h')
        ^^^ pieceKey T g (f g) ^^^ pieceKey T g vK
        ^^^ pieceKey T f' (f f') ^^^ pieceKey T f' vR := by
  rw [piecesHash_update T _ f' vR hf, piecesHash_update T _ g vK hg,
      piecesHash_update T _ h' none hh, piecesHash_update T f e none he,
      Function.update_noteq (Ne.symm hgf), Function.update_noteq (Ne.symm hhf),
      Function.update_noteq (Ne.symm hef), Function.update_noteq (Ne.symm hhg),
      Function.update_noteq (Ne.symm heg), Function.update_noteq (Ne.symm heh)]
  simp [pieceKey, Nat.xor_assoc]

/-- The capture step of `update_cle` in mask form, for a non-en-passant
move whose target holds no own piece: it XORs exactly the key of the
target-square content. -/
theorem capStep_eq (T : ZTables) (b : Board) (m : Move) (cle : Nat)
    (hep : isEnPassant b m = false)
    (hOwn : ∀ q, b.pieces m.to_square = some q → q.color ≠ b.turn) :
    (if isCapture b m then
      (match b.pieces m.to_square with
       | some captured => cle ^^^ T.ZP m.to_square (pieceIndex captured)
       | none => cle)
     else cle) = cle ^^^ pieceKey T m.to_square (b.pieces m.to_square) := by
  cases hto : b.pieces m.to_square with
  | none => simp [isCapture, hto, hep, pieceKey]
  | some q =>
    have hq := hOwn q hto
    simp [isCapture, hto, hep, hq, pieceKey]

/-- The arrival step of `update_cle` in mask form: the arriving piece is
the promotion piece when present, the mover otherwise. -/
theorem arrStep_eq (T : ZTables) (m : Move) (p : Piece) (cle : Nat) :
    (match m.promotion with
     | some pt => cle ^^^ T.ZP m.to_square (pieceIndex { pieceType := pt, color := p.color })
     | none => cle ^^^ T.ZP m.to_square (pieceIndex p))
    = cle ^^^ T.ZP m.to_square (pieceIndex
        { pieceType := match m.promotion with
                       | some pt => pt
                       | none => p.pieceType,
          color := p.color }) := by
  cases m.promotion <;> simp

/-- The double-push en-passant step of `update_cle` in mask form: for moves
on which the source's rank-distance test agrees with the library's
double-push detection, the XORed file key is the en-passant component of
the pushed position. -/
theorem epNew_eq (T : ZTables) (m : Move) (p : Piece) (cle : Nat)
    (hRk : p.pieceType = PieceType.pawn →
      ((squareRank m.from_square + 2 = squareRank m.to_square ∨
        squareRank m.to_square + 2 = squareRank m.from_square) ↔
       ((m.to_square = m.from_square + 16 ∧ squareRank m.from_square = 1) ∨
        (m.from_square = m.to_square + 16 ∧ squareRank m.from_square = 6)))) :
    (if p.pieceType = PieceType.pawn then
       if squareRank m.from_square + 2 = squareRank m.to_square ∨
          squareRank m.to_square + 2 = squareRank m.from_square then
         cle ^^^ T.ZE (squareFile m.to_square)
       else cle
     else cle)
    = cle ^^^ epHash T (if p.pieceType = PieceType.pawn then
        (if m.to_square = m.from_square + 16 ∧ squareRank m.from_square = 1 then
          some (m.from_square + 8)
        else if m.from_square = m.to_square + 16 ∧ squareRank m.from_square = 6 then
          some (m.from_square - 8)
        else none)
      else none) := by
  by_cases hpt : p.pieceType = PieceType.pawn
  · rw [if_pos hpt, if_pos hpt]
    by_cases h1 : m.to_square = m.from_square + 16 ∧ squareRank m.from_square = 1
    · have hdd := (hRk hpt).mpr (Or.inl h1)
      rw [if_pos hdd, if_pos h1]
      have hfe : squareFile m.to_square = squareFile (m.from_square + 8) := by
        have h16 := h1.1
        simp only [squareFile]
        omega
      simp [epHash, hfe]
    · by_cases h2 : m.from_square = m.to_square + 16 ∧ squareRank m.from_square = 6
      · have hdd := (hRk hpt).mpr (Or.inr h2)
        rw [if_pos hdd, if_neg h1, if_pos h2]
        have hfe : squareFile m.to_square = squareFile (m.from_square - 8) := by
          have h16 := h2.1
          simp only [squareFile]
          omega
        simp [epHash, hfe]
      · have hdd : ¬ (squareRank m.from_square + 2 = squareRank m.to_square ∨
            squareRank m.to_square + 2 = squareRank m.from_square) :=
          fun hd => ((hRk hpt).mp hd).elim h1 h2
        rw [if_neg hdd, if_neg h1, if_neg h2]
        simp [epHash]
  · rw [if_neg hpt, if_neg hpt]
    simp [epHash]

/-- Hash update correctness for every move that is neither a castling nor
an en-passant capture (quiet moves, ordinary captures, double pushes,
promotions with and without capture). -/
theorem c1_generic (T : ZTables) (b : Board) (m : Move) (p : Piece)
    (hp : b.pieces m.from_square = some p)
    (hc : p.color = b.turn)
    (hf : m.from_square < 64) (ht : m.to_square < 64)
    (hne : m.from_square ≠ m.to_square)
    (hcast : isCastling b m = false)
    (hep : isEnPassant b m = false)
    (hOwn : ∀ q, b.pieces m.to_square = some q → q.color ≠ b.turn)
    (hRk : p.pieceType = PieceType.pawn →
      ((squareRank m.from_square + 2 = squareRank m.to_square ∨
        squareRank m.to_square + 2 = squareRank m.from_square) ↔
       ((m.to_square = m.from_square + 16 ∧ squareRank m.from_square = 1) ∨
        (m.from_square = m.to_square + 16 ∧ squareRank m.from_square = 6)))) :
    update_cle T b (hash_zobrist T b) m = hash_zobrist T (pushMove b m) := by
  have hPturn : (pushMove b m).turn = b.turn.other := by
    simp [pushMove, hp]
  have hPp : (pushMove b m).pieces
      = Function.update (Function.update b.pieces m.from_square none) m.to_square
          (some { pieceType := match m.promotion with
                               | some pt => pt
                               | none => p.pieceType,
                  color := b.turn }) := by
    simp [pushMove, hp, hcast, hep]
  have hPep : (pushMove b m).ep
      = (if p.pieceType = PieceType.pawn then
          (if m.to_square = m.from_square + 16 ∧ squareRank m.from_square = 1 then
            some (m.from_square + 8)
          else if m.from_square = m.to_square + 16 ∧ squareRank m.from_square = 6 then
            some (m.from_square - 8)
          else none)
        else none) := by
    simp [pushMove, hp]
  simp only [update_cle, hp]
  simp only [hep, Bool.false_eq_true, if_false, hcast]
  rw [epOut_eq, capStep_eq T b m _ hep hOwn, arrStep_eq, epNew_eq T m p _ hRk]
  simp only [hash_zobrist, hPp, hPep, hPturn]
  rw [piecesHash_move T b.pieces m.from_square m.to_square _ hf ht hne,
      castleHash_toggle T b (pushMove b m), turnHash_other, hp]
  simp only [xor_ite, pieceKey, hc]
  simp [Nat.xor_assoc, Nat.xor_comm, natXorLeftComm, Nat.xor_cancel_left, Nat.xor_self]

/-- Hash update correctness for en-passant captures. -/
theorem c1_ep (T : ZTables) (b : Board) (m : Move)
    (hp : b.pieces m.from_square = some { pieceType := PieceType.pawn, color := b.turn })
    (hf : m.from_square < 64) (ht : m.to_square < 64)
    (hbe : b.ep = some m.to_square)
    (hto : b.pieces m.to_square = none)
    (hprom : m.promotion = none)
    (hgeom : pawnCaptureGeom b.turn m = true)
    (hcap : b.pieces (if b.turn = Color.white then m.to_square - 8 else m.to_square + 8)
      = some { pieceType := PieceType.pawn, color := b.turn.other }) :
    update_cle T b (hash_zobrist T b) m = hash_zobrist T (pushMove b m) := by
  have hgeom' := hgeom
  simp only [pawnCaptureGeom, fileAdjacent, Bool.and_eq_true, Bool.or_eq_true,
    decide_eq_true_eq] at hgeom'
  obtain ⟨hfa, hdiag⟩ := hgeom'
  have hfile : squareFile m.from_square + 1 = squareFile m.to_square ∨
      squareFile m.to_square + 1 = squareFile m.from_square := hfa
  have hdiag2 : (b.turn = Color.white ∧
        (m.to_square = m.from_square + 7 ∨ m.to_square = m.from_square + 9)) ∨
      (b.turn = Color.black ∧
        (m.from_square = m.to_square + 7 ∨ m.from_square = m.to_square + 9)) := by
    cases hbt : b.turn
    · rw [hbt] at hdiag
      simp only [Bool.or_eq_true, decide_eq_true_eq] at hdiag
      exact Or.inl ⟨rfl, hdiag⟩
    · rw [hbt] at hdiag
      simp only [Bool.or_eq_true, decide_eq_true_eq] at hdiag
      exact Or.inr ⟨rfl, hdiag⟩
  have hdiffs : (decide (m.to_square + 7 = m.from_square) ||
      decide (m.from_square + 7 = m.to_square) ||
      decide (m.to_square + 9 = m.from_square) ||
      decide (m.from_square + 9 = m.to_square)) = true := by
    simp only [Bool.or_eq_true, decide_eq_true_eq]
    rcases hdiag2 with ⟨_, h | h⟩ | ⟨_, h | h⟩ <;> omega
  have hepT : isEnPassant b m = true := by
    simp [isEnPassant, hbe, hp, hto, hdiffs]
  have hcapT : isCapture b m = true := by
    simp [isCapture, hto, hepT]
  have hcastF : isCastling b m = false := by
    simp [isCastling, hp]
  have hRk : PieceType.pawn = PieceType.pawn →
      ((squareRank m.from_square + 2 = squareRank m.to_square ∨
        squareRank m.to_square + 2 = squareRank m.from_square) ↔
       ((m.to_square = m.from_square + 16 ∧ squareRank m.from_square = 1) ∨
        (m.from_square = m.to_square + 16 ∧ squareRank m.from_square = 6))) := by
    intro _
    constructor
    · intro hd
      exfalso
      simp only [squareFile, squareRank] at hfile hd
      rcases hdiag2 with ⟨_, h79⟩ | ⟨_, h79⟩ <;> rcases h79 with h | h <;> omega
    · rintro (⟨h16, _⟩ | ⟨h16, _⟩) <;> exfalso <;>
        rcases hdiag2 with ⟨_, h79⟩ | ⟨_, h79⟩ <;> rcases h79 with h | h <;>
        simp only [squareFile] at hfile <;> omega
  -- the capture square and its separation facts
  have hPturn : (pushMove b m).turn = b.turn.other := by
    simp [pushMove, hp]
  have hPep : (pushMove b m).ep = none := by
    simp only [pushMove, hp]
    have h1 : ¬ (m.to_square = m.from_square + 16 ∧ squareRank m.from_square = 1) := by
      rintro ⟨h16, _⟩
      rcases hdiag2 with ⟨_, h79⟩ | ⟨_, h79⟩ <;> rcases h79 with h | h <;> omega
    have h2 : ¬ (m.from_square = m.to_square + 16 ∧ squareRank m.from_square = 6) := by
      rintro ⟨h16, _⟩
      rcases hdiag2 with ⟨_, h79⟩ | ⟨_, h79⟩ <;> rcases h79 with h | h <;> omega
    simp [h1, h2]
  have hfile' : m.from_square % 8 + 1 = m.to_square % 8 ∨
      m.to_square % 8 + 1 = m.from_square % 8 := by
    simpa only [squareFile] using hfile
  cases hbt : b.turn with
  | white =>
    have hdw : m.to_square = m.from_square + 7 ∨ m.to_square = m.from_square + 9 := by
      rcases hdiag2 with ⟨_, h⟩ | ⟨hx, _⟩
      · exact h
      · rw [hbt] at hx; cases hx
    have hddF : ¬ (squareRank m.from_square + 2 = squareRank m.to_square ∨
        squareRank m.to_square + 2 = squareRank m.from_square) := by
      intro hd
      simp only [squareRank] at hd
      rcases hdw with h | h <;> omega
    have hcsB : m.to_square - 8 < 64 := by omega
    have hcs1 : m.from_square ≠ m.to_square - 8 := by
      rcases hdw with h | h <;> omega
    have hcs2 : m.from_square ≠ m.to_square := by
      rcases hdw with h | h <;> omega
    have hcs3 : m.to_square - 8 ≠ m.to_square := by
      rcases hdw with h | h <;> omega
    have hcap' : b.pieces (m.to_square - 8)
        = some { pieceType := PieceType.pawn, color := Color.black } := by
      rw [hbt] at hcap
      simpa [Color.other] using hcap
    have hPp : (pushMove b m).pieces
        = Function.update (Function.update
            (Function.update b.pieces m.from_square none) (m.to_square - 8) none)
            m.to_square
            (some { pieceType := PieceType.pawn, color := Color.white }) := by
      simp [pushMove, hp, hcastF, hepT, hprom, hbt]
    simp only [update_cle, hp]
    rw [epOut_eq]
    simp only [hash_zobrist, hPp, hPep, hPturn]
    rw [piecesHash_ep T b.pieces m.from_square (m.to_square - 8) m.to_square _ hf hcsB ht
        hcs1 hcs2 hcs3,
      castleHash_toggle T b (pushMove b m), turnHash_other]
    simp only [hbt, hcapT, hepT, hprom, hcastF, hcap', hp, hto, hddF, Bool.false_eq_true,
      if_false, if_true, eq_self_iff_true, reduceCtorEq, xor_ite, pieceKey, epHash, turnHash,
      Color.other]
    simp [Nat.xor_assoc, Nat.xor_comm, natXorLeftComm, Nat.xor_cancel_left, Nat.xor_self,
      epHash, turnHash]
  | black =>
    have hdw : m.from_square = m.to_square + 7 ∨ m.from_square = m.to_square + 9 := by
      rcases hdiag2 with ⟨hx, _⟩ | ⟨_, h⟩
      · rw [hbt] at hx; cases hx
      · exact h
    have hddF : ¬ (squareRank m.from_square + 2 = squareRank m.to_square ∨
        squareRank m.to_square + 2 = squareRank m.from_square) := by
      intro hd
      simp only [squareRank] at hd
      rcases hdw with h | h <;> omega
    have hcsB : m.to_square + 8 < 64 := by
      rcases hdw with h | h <;> omega
    have hcs1 : m.from_square ≠ m.to_square + 8 := by
      rcases hdw with h | h <;> omega
    have hcs2 : m.from_square ≠ m.to_square := by
      rcases hdw with h | h <;> omega
    have hcs3 : m.to_square + 8 ≠ m.to_square := by omega
    have hcap' : b.pieces (m.to_square + 8)
        = some { pieceType := PieceType.pawn, color := Color.white } := by
      rw [hbt] at hcap
      simpa [Color.other] using hcap
    have hPp : (pushMove b m).pieces
        = Function.update (Function.update
            (Function.update b.pieces m.from_square none) (m.to_square + 8) none)
            m.to_square
            (some { pieceType := PieceType.pawn, color := Color.black }) := by
      simp [pushMove, hp, hcastF, hepT, hprom, hbt]
    simp only [update_cle, hp]
    rw [epOut_eq]
    simp only [hash_zobrist, hPp, hPep, hPturn]
    rw [piecesHash_ep T b.pieces m.from_square (m.to_square + 8) m.to_square _ hf hcsB ht
        hcs1 hcs2 hcs3,
      castleHash_toggle T b (pushMove b m), turnHash_other]
    simp only [hbt, hcapT, hepT, hprom, hcastF, hcap', hp, hto, hddF, Bool.false_eq_true,
      if_false, if_true, eq_self_iff_true, reduceCtorEq, xor_ite, pieceKey, epHash, turnHash,
      Color.other]
    simp [Nat.xor_assoc, Nat.xor_comm, natXorLeftComm, Nat.xor_cancel_left, Nat.xor_self,
      epHash, turnHash]

/-- Hash update correctness for White kingside castling (squares numbered
a1 = 0 .. h8 = 63). -/
theorem c1_castle_wk (T : ZTables) (b : Board)
    (hbt : b.turn = Color.white)
    (hpk : b.pieces 4 = some { pieceType := PieceType.king, color := Color.white })
    (hpr : b.pieces 7 = some { pieceType := PieceType.rook, color := Color.white })
    (hf1 : b.pieces 5 = none) (hg1 : b.pieces 6 = none) :
    update_cle T b (hash_zobrist T b)
        { from_square := 4, to_square := 6, promotion := none }
      = hash_zobrist T
          (pushMove b { from_square := 4, to_square := 6, promotion := none }) := by
  have hcastT : isCastling b { from_square := 4, to_square := 6, promotion := none }
      = true := by
    simp [isCastling, hpk, squareFile]
  have hepF : isEnPassant b { from_square := 4, to_square := 6, promotion := none }
      = false := by
    unfold isEnPassant
    cases b.ep with
    | none => rfl
    | some ee => simp [hpk]
  have hcapF : isCapture b { from_square := 4, to_square := 6, promotion := none }
      = false := by
    simp [isCapture, hg1, hepF]
  have hPp : (pushMove b { from_square := 4, to_square := 6, promotion := none }).pieces
      = Function.update (Function.update
          (Function.update (Function.update b.pieces 4 none) 7 none)
          6 (some { pieceType := PieceType.king, color := Color.white }))
          5 (some { pieceType := PieceType.rook, color := Color.white }) := by
    simp [pushMove, hpk, hcastT, hbt, squareFile, A1, C1, D1, F1, G1, H1, A8, C8, D8,
      F8, G8, H8]
  have hPep : (pushMove b { from_square := 4, to_square := 6, promotion := none }).ep
      = none := by
    simp [pushMove, hpk]
  have hPturn : (pushMove b { from_square := 4, to_square := 6, promotion := none }).turn
      = b.turn.other := by
    simp [pushMove, hpk]
  have hcrs : castleRookSquares { from_square := 4, to_square := 6, promotion := none }
      = (7, 5) := by decide
  simp only [update_cle, hpk]
  rw [epOut_eq]
  simp only [hash_zobrist, hPp, hPep, hPturn]
  rw [piecesHash_castle T b.pieces 4 7 6 5 _ _ (by decide) (by decide) (by decide)
      (by decide) (by decide) (by decide) (by decide) (by decide) (by decide) (by decide),
    castleHash_toggle T b
      (pushMove b { from_square := 4, to_square := 6, promotion := none }),
    turnHash_other]
  simp only [hcapF, hcastT, hepF, Bool.false_eq_true, if_false, if_true, eq_self_iff_true,
    hcrs, reduceCtorEq,
    hpk, hpr, hf1, hg1, xor_ite, pieceKey, epHash]
  simp [Nat.xor_assoc, Nat.xor_comm, natXorLeftComm, Nat.xor_cancel_left, Nat.xor_self,
    epHash]

/-- Hash update correctness for White queenside castling (squares numbered
a1 = 0 .. h8 = 63). -/
theorem c1_castle_wq (T : ZTables) (b : Board)
    (hbt : b.turn = Color.white)
    (hpk : b.pieces 4 = some { pieceType := PieceType.king, color := Color.white })
    (hpr : b.pieces 0 = some { pieceType := PieceType.rook, color := Color.white })
    (hc1 : b.pieces 2 = none) (hd1 : b.pieces 3 = none) :
    update_cle T b (hash_zobrist T b)
        { from_square := 4, to_square := 2, promotion := none }
      = hash_zobrist T
          (pushMove b { from_square := 4, to_square := 2, promotion := none }) := by
  have hcastT : isCastling b { from_square := 4, to_square := 2, promotion := none }
      = true := by
    simp [isCastling, hpk, squareFile]
  have hepF : isEnPassant b { from_square := 4, to_square := 2, promotion := none }
      = false := by
    unfold isEnPassant
    cases b.ep with
    | none => rfl
    | some ee => simp [hpk]
  have hcapF : isCapture b { from_square := 4, to_square := 2, promotion := none }
      = false := by
    simp [isCapture, hc1, hepF]
  have hPp : (pushMove b { from_square := 4, to_square := 2, promotion := none }).pieces
      = Function.update (Function.update
          (Function.update (Function.update b.pieces 4 none) 0 none)
          2 (some { pieceType := PieceType.king, color := Color.white }))
          3 (some { pieceType := PieceType.rook, color := Color.white }) := by
    simp [pushMove, hpk, hcastT, hbt, squareFile, A1, C1, D1, F1, G1, H1, A8, C8, D8,
      F8, G8, H8]
  have hPep : (pushMove b { from_square := 4, to_square := 2, promotion := none }).ep
      = none := by
    simp [pushMove, hpk]
  have hPturn : (pushMove b { from_square := 4, to_square := 2, promotion := none }).turn
      = b.turn.other := by
    simp [pushMove, hpk]
  have hcrs : castleRookSquares { from_square := 4, to_square := 2, promotion := none }
      = (0, 3) := by decide
  simp only [update_cle, hpk]
  rw [epOut_eq]
  simp only [hash_zobrist, hPp, hPep, hPturn]
  rw [piecesHash_castle T b.pieces 4 0 2 3 _ _ (by decide) (by decide) (by decide)
      (by decide) (by decide) (by decide) (by decide) (by decide) (by decide) (by decide),
    castleHash_toggle T b
      (pushMove b { from_square := 4, to_square := 2, promotion := none }),
    turnHash_other]
  simp only [hcapF, hcastT, hepF, Bool.false_eq_true, if_false, if_true, eq_self_iff_true,
    hcrs, reduceCtorEq,
    hpk, hpr, hc1, hd1, xor_ite, pieceKey, epHash]
  simp [Nat.xor_assoc, Nat.xor_comm, natXorLeftComm, Nat.xor_cancel_left, Nat.xor_self,
    epHash]

/-- Hash update correctness for Black kingside castling (squares numbered
a1 = 0 .. h8 = 63). -/
theorem c1_castle_bk (T : ZTables) (b : Board)
    (hbt : b.turn = Color.black)
    (hpk : b.pieces 60 = some { pieceType := PieceType.king, color := Color.black })
    (hpr : b.pieces 63 = some { pieceType := PieceType.rook, color := Color.black })
    (hf8 : b.pieces 61 = none) (hg8 : b.pieces 62 = none) :
    update_cle T b (hash_zobrist T b)
        { from_square := 60, to_square := 62, promotion := none }
      = hash_zobrist T
          (pushMove b { from_square := 60, to_square := 62, promotion := none }) := by
  have hcastT : isCastling b { from_square := 60, to_square := 62, promotion := none }
      = true := by
    simp [isCastling, hpk, squareFile]
  have hepF : isEnPassant b { from_square := 60, to_square := 62, promotion := none }
      = false := by
    unfold isEnPassant
    cases b.ep with
    | none => rfl
    | some ee => simp [hpk]
  have hcapF : isCapture b { from_square := 60, to_square := 62, promotion := none }
      = false := by
    simp [isCapture, hg8, hepF]
  have hPp : (pushMove b { from_square := 60, to_square := 62, promotion := none }).pieces
      = Function.update (Function.update
          (Function.update (Function.update b.pieces 60 none) 63 none)
          62 (some { pieceType := PieceType.king, color := Color.black }))
          61 (some { pieceType := PieceType.rook, color := Color.black }) := by
    simp [pushMove, hpk, hcastT, hbt, squareFile, A1, C1, D1, F1, G1, H1, A8, C8, D8,
      F8, G8, H8]
  have hPep : (pushMove b { from_square := 60, to_square := 62, promotion := none }).ep
      = none := by
    simp [pushMove, hpk]
  have hPturn : (pushMove b { from_square := 60, to_square := 62, promotion := none }).turn
      = b.turn.other := by
    simp [pushMove, hpk]
  have hcrs : castleRookSquares { from_square := 60, to_square := 62, promotion := none }
      = (63, 61) := by decide
  simp only [update_cle, hpk]
  rw [epOut_eq]
  simp only [hash_zobrist, hPp, hPep, hPturn]
  rw [piecesHash_castle T b.pieces 60 63 62 61 _ _ (by decide) (by decide) (by decide)
      (by decide) (by decide) (by decide) (by decide) (by decide) (by decide) (by decide),
    castleHash_toggle T b
      (pushMove b { from_square := 60, to_square := 62, promotion := none }),
    turnHash_other]
  simp only [hcapF, hcastT, hepF, Bool.false_eq_true, if_false, if_true, eq_self_iff_true,
    hcrs, reduceCtorEq,
    hpk, hpr, hf8, hg8, xor_ite, pieceKey, epHash]
  simp [Nat.xor_assoc, Nat.xor_comm, natXorLeftComm, Nat.xor_cancel_left, Nat.xor_self,
    epHash]

/-- Hash update correctness for Black queenside castling (squares numbered
a1 = 0 .. h8 = 63). -/
theorem c1_castle_bq (T : ZTables) (b : Board)
    (hbt : b.turn = Color.black)
    (hpk : b.pieces 60 = some { pieceType := PieceType.king, color := Color.black })
    (hpr : b.pieces 56 = some { pieceType := PieceType.rook, color := Color.black })
    (hc8 : b.pieces 58 = none) (hd8 : b.pieces 59 = none) :
    update_cle T b (hash_zobrist T b)
        { from_square := 60, to_square := 58, promotion := none }
      = hash_zobrist T
          (pushMove b { from_square := 60, to_square := 58, promotion := none }) := by
  have hcastT : isCastling b { from_square := 60, to_square := 58, promotion := none }
      = true := by
    simp [isCastling, hpk, squareFile]
  have hepF : isEnPassant b { from_square := 60, to_square := 58, promotion := none }
      = false := by
    unfold isEnPassant
    cases b.ep with
    | none => rfl
    | some ee => simp [hpk]
  have hcapF : isCapture b { from_square := 60, to_square := 58, promotion := none }
      = false := by
    simp [isCapture, hc8, hepF]
  have hPp : (pushMove b { from_square := 60, to_square := 58, promotion := none }).pieces
      = Function.update (Function.update
          (Function.update (Function.update b.pieces 60 none) 56 none)
          58 (some { pieceType := PieceType.king, color := Color.black }))
          59 (some { pieceType := PieceType.rook, color := Color.black }) := by
    simp [pushMove, hpk, hcastT, hbt, squareFile, A1, C1, D1, F1, G1, H1, A8, C8, D8,
      F8, G8, H8]
  have hPep : (pushMove b { from_square := 60, to_square := 58, promotion := none }).ep
      = none := by
    simp [pushMove, hpk]
  have hPturn : (pushMove b { from_square := 60, to_square := 58, promotion := none }).turn
      = b.turn.other := by
    simp [pushMove, hpk]
  have hcrs : castleRookSquares { from_square := 60, to_square := 58, promotion := none }
      = (56, 59) := by decide
  simp only [update_cle, hpk]
  rw [epOut_eq]
  simp only [hash_zobrist, hPp, hPep, hPturn]
  rw [piecesHash_castle T b.pieces 60 56 58 59 _ _ (by decide) (by decide) (by decide)
      (by decide) (by decide) (by decide) (by decide) (by decide) (by decide) (by decide),
    castleHash_toggle T b
      (pushMove b { from_square := 60, to_square := 58, promotion := none }),
    turnHash_other]
  simp only [hcapF, hcastT, hepF, Bool.false_eq_true, if_false, if_true, eq_self_iff_true,
    hcrs, reduceCtorEq,
    hpk, hpr, hc8, hd8, xor_ite, pieceKey, epHash]
  simp [Nat.xor_assoc, Nat.xor_comm, natXorLeftComm, Nat.xor_cancel_left, Nat.xor_self,
    epHash]

/-- A move whose moving piece is not a pawn is no en-passant capture. -/
theorem isEnPassant_false_not_pawn (b : Board) (m : Move) (p : Piece)
    (hp : b.pieces m.from_square = some p) (h : p.pieceType ≠ PieceType.pawn) :
    isEnPassant b m = false := by
  unfold isEnPassant
  cases b.ep with
  | none => rfl
  | some e => simp [hp, h]

/-- A move onto an occupied square is no en-passant capture. -/
theorem isEnPassant_false_occupied (b : Board) (m : Move) (q : Piece)
    (hto : b.pieces m.to_square = some q) : isEnPassant b m = false := by
  unfold isEnPassant
  cases b.ep with
  | none => rfl
  | some e => simp [hto]

/-- A move that is not a one-step diagonal is no en-passant capture. -/
theorem isEnPassant_false_not_diag (b : Board) (m : Move)
    (h : ¬ (m.to_square + 7 = m.from_square ∨ m.from_square + 7 = m.to_square ∨
            m.to_square + 9 = m.from_square ∨ m.from_square + 9 = m.to_square)) :
    isEnPassant b m = false := by
  unfold isEnPassant
  cases b.ep with
  | none => rfl
  | some e =>
    rw [Bool.eq_false_iff]
    intro hT
    simp only [Bool.and_eq_true, Bool.or_eq_true, decide_eq_true_eq] at hT
    obtain ⟨⟨⟨_, hd⟩, _⟩, _⟩ := hT
    exact h (by tauto)

/-- A move of a non-king piece is no castling. -/
theorem isCastling_false_not_king (b : Board) (m : Move) (p : Piece)
    (hp : b.pieces m.from_square = some p) (h : p.pieceType ≠ PieceType.king) :
    isCastling b m = false := by
  simp [isCastling, hp, h]

/-- A one-file king step onto no own rook is no castling. -/
theorem isCastling_false_king_step (b : Board) (m : Move)
    (h1 : ¬ (squareFile m.from_square + 2 ≤ squareFile m.to_square))
    (h2 : ¬ (squareFile m.to_square + 2 ≤ squareFile m.from_square))
    (hOwn : ∀ q, b.pieces m.to_square = some q → q.color ≠ b.turn) :
    isCastling b m = false := by
  unfold isCastling
  cases hp : b.pieces m.from_square with
  | none => rfl
  | some p =>
    cases hto : b.pieces m.to_square with
    | none => simp [h1, h2]
    | some q =>
      have := hOwn q hto
      simp [h1, h2, this]

/-- Geometry of a successful `shiftSq`. -/
theorem shiftSq_spec (sq sq' : Nat) (df dr : Int) (h : shiftSq sq df dr = some sq') :
    sq' < 64 ∧ (squareFile sq' : Int) = (squareFile sq : Int) + df ∧
    (squareRank sq' : Int) = (squareRank sq : Int) + dr := by
  unfold shiftSq at h
  simp only [] at h
  split_ifs at h with hcond
  · obtain ⟨h1, h2, h3, h4⟩ := hcond
    injection h with h
    subst h
    simp only [squareFile, squareRank] at h1 h2 h3 h4 ⊢
    omega

/-- Dispatcher: hash update correctness for every legal move. -/
theorem update_cle_correct (T : ZTables) (b : Board) (m : Move) (h : LegalMove b m) :
    update_cle T b (hash_zobrist T b) m = hash_zobrist T (pushMove b m) := by
  obtain ⟨hpl, _⟩ := h
  unfold pseudoLegalMove at hpl
  cases hp : b.pieces m.from_square with
  | none =>
    rw [hp] at hpl
    simp at hpl
  | some p =>
    rw [hp] at hpl
    simp only [Bool.and_eq_true, decide_eq_true_eq] at hpl
    obtain ⟨⟨⟨hf, ht⟩, hne⟩, ⟨hpc, hTgt⟩, hKind⟩ := hpl
    have hOwn : ∀ q, b.pieces m.to_square = some q → q.color ≠ b.turn := by
      intro q hq
      rw [hq] at hTgt
      simpa using hTgt
    obtain ⟨pt, pc⟩ := p
    cases pt with
    | knight =>
      exact c1_generic T b m _ hp hpc hf ht hne
        (isCastling_false_not_king b m _ hp (fun hh => PieceType.noConfusion hh))
        (isEnPassant_false_not_pawn b m _ hp (fun hh => PieceType.noConfusion hh))
        hOwn (fun hpt => PieceType.noConfusion hpt)
    | bishop =>
      exact c1_generic T b m _ hp hpc hf ht hne
        (isCastling_false_not_king b m _ hp (fun hh => PieceType.noConfusion hh))
        (isEnPassant_false_not_pawn b m _ hp (fun hh => PieceType.noConfusion hh))
        hOwn (fun hpt => PieceType.noConfusion hpt)
    | rook =>
      exact c1_generic T b m _ hp hpc hf ht hne
        (isCastling_false_not_king b m _ hp (fun hh => PieceType.noConfusion hh))
        (isEnPassant_false_not_pawn b m _ hp (fun hh => PieceType.noConfusion hh))
        hOwn (fun hpt => PieceType.noConfusion hpt)
    | queen =>
      exact c1_generic T b m _ hp hpc hf ht hne
        (isCastling_false_not_king b m _ hp (fun hh => PieceType.noConfusion hh))
        (isEnPassant_false_not_pawn b m _ hp (fun hh => PieceType.noConfusion hh))
        hOwn (fun hpt => PieceType.noConfusion hpt)
    | king =>
      simp only [Bool.or_eq_true] at hKind
      rcases hKind with hstep | hcastle
      · simp only [Bool.and_eq_true, List.any_eq_true, decide_eq_true_eq] at hstep
        obtain ⟨hprm, d, hdmem, hsh⟩ := hstep
        simp only [kingDeltas, List.mem_cons, List.not_mem_nil, or_false] at hdmem
        rcases hdmem with h | h | h | h | h | h | h | h <;> subst h <;>
          obtain ⟨hlt, hfe, hre⟩ := shiftSq_spec _ _ _ _ hsh <;>
          norm_num at hfe hre <;>
          exact c1_generic T b m _ hp hpc hf ht hne
            (isCastling_false_king_step b m (by omega) (by omega) hOwn)
            (isEnPassant_false_not_pawn b m _ hp (fun hh => PieceType.noConfusion hh))
            hOwn (fun hpt => PieceType.noConfusion hpt)
      · have hpc' : pc = b.turn := hpc
        simp only [castleClause, Bool.and_eq_true, Bool.or_eq_true, decide_eq_true_eq,
          Option.isNone_iff_eq_none] at hcastle
        obtain ⟨hprm, hside⟩ := hcastle
        obtain ⟨mf, mt, mp⟩ := m
        simp only at hprm
        subst hprm
        rcases hside with ⟨⟨hbt, hfrom⟩, hwing⟩ | ⟨⟨hbt, hfrom⟩, hwing⟩
        · simp only at hfrom
          subst hfrom
          have hpcW : pc = Color.white := by rw [hpc', hbt]
          subst hpcW
          rcases hwing with hw | hw
          · simp only [and_assoc] at hw
            obtain ⟨hto, hwk, hrk, hn1, hn2, -⟩ := hw
            subst hto
            exact c1_castle_wk T b hbt hp hrk hn1 hn2
          · simp only [and_assoc] at hw
            obtain ⟨hto, hwq, hrk, hn1, hn2, hn3, -⟩ := hw
            subst hto
            exact c1_castle_wq T b hbt hp hrk hn2 hn3
        · simp only at hfrom
          subst hfrom
          have hpcB : pc = Color.black := by rw [hpc', hbt]
          subst hpcB
          rcases hwing with hw | hw
          · simp only [and_assoc] at hw
            obtain ⟨hto, hbk, hrk, hn1, hn2, -⟩ := hw
            subst hto
            exact c1_castle_bk T b hbt hp hrk hn1 hn2
          · simp only [and_assoc] at hw
            obtain ⟨hto, hbq, hrk, hn1, hn2, hn3, -⟩ := hw
            subst hto
            exact c1_castle_bq T b hbt hp hrk hn2 hn3
    | pawn =>
      cases pc with
      | white =>
        simp only [pawnClause, Bool.and_eq_true, Bool.or_eq_true, decide_eq_true_eq,
          Option.isNone_iff_eq_none] at hKind
        obtain ⟨hpromOk, hmv⟩ := hKind
        rcases hmv with ((⟨h8, hempty⟩ | ⟨⟨⟨h16, hr1⟩, hmid⟩, hempty⟩) | ⟨hgeom, hvic⟩) | hepc
        · -- single push
          refine c1_generic T b m _ hp hpc hf ht hne
            (isCastling_false_not_king b m _ hp (fun hh => PieceType.noConfusion hh))
            (isEnPassant_false_not_diag b m ?_) hOwn ?_
          · omega
          · intro _
            simp only [squareRank]
            constructor
            · intro hd; exfalso; omega
            · rintro (⟨h16, _⟩ | ⟨h16, _⟩) <;> omega
        · -- double push
          refine c1_generic T b m _ hp hpc hf ht hne
            (isCastling_false_not_king b m _ hp (fun hh => PieceType.noConfusion hh))
            (isEnPassant_false_not_diag b m ?_) hOwn ?_
          · omega
          · intro _
            simp only [squareRank] at hr1 ⊢
            constructor
            · intro _
              exact Or.inl ⟨h16, hr1⟩
            · intro _
              omega
        · -- ordinary capture
          have hgeo := hgeom
          simp only [pawnCaptureGeom, fileAdjacent, Bool.and_eq_true, Bool.or_eq_true,
            decide_eq_true_eq] at hgeo
          obtain ⟨hfa, hdir⟩ := hgeo
          obtain ⟨q, hq⟩ : ∃ q, b.pieces m.to_square = some q := by
            cases hq2 : b.pieces m.to_square with
            | none => rw [hq2] at hvic; cases hvic
            | some q => exact ⟨q, rfl⟩
          refine c1_generic T b m _ hp hpc hf ht hne
            (isCastling_false_not_king b m _ hp (fun hh => PieceType.noConfusion hh))
            (isEnPassant_false_occupied b m q hq) hOwn ?_
          intro _
          simp only [squareFile] at hfa
          simp only [squareRank]
          constructor
          · intro hd; exfalso; rcases hdir with h | h <;> omega
          · rintro (⟨h16, _⟩ | ⟨h16, _⟩) <;> exfalso <;> rcases hdir with h | h <;> omega
        · -- en passant
          obtain ⟨⟨⟨⟨hgeom, hbe⟩, hempty⟩, hrk5⟩, hcapsq⟩ := hepc
          have hbt : b.turn = Color.white := hpc.symm
          have hp' : b.pieces m.from_square
              = some { pieceType := PieceType.pawn, color := b.turn } := by
            rw [hbt]; exact hp
          have hprom : m.promotion = none := by
            have hcondFalse : ¬ (True ∧ squareRank m.to_square = 7 ∨
                Color.white = Color.black ∧ squareRank m.to_square = 0) := by
              rintro (⟨-, h7⟩ | ⟨hcb, -⟩)
              · omega
              · cases hcb
            rw [if_neg hcondFalse] at hpromOk
            simpa using hpromOk
          have hgeom' : pawnCaptureGeom b.turn m = true := by rw [hbt]; exact hgeom
          have hcap' : b.pieces
              (if b.turn = Color.white then m.to_square - 8 else m.to_square + 8)
              = some { pieceType := PieceType.pawn, color := b.turn.other } := by
            rw [hbt]
            simpa [Color.other] using hcapsq
          exact c1_ep T b m hp' hf ht hbe hempty hprom hgeom' hcap'
      | black =>
        simp only [pawnClause, Bool.and_eq_true, Bool.or_eq_true, decide_eq_true_eq,
          Option.isNone_iff_eq_none] at hKind
        obtain ⟨hpromOk, hmv⟩ := hKind
        rcases hmv with ((⟨h8, hempty⟩ | ⟨⟨⟨h16, hr6⟩, hmid⟩, hempty⟩) | ⟨hgeom, hvic⟩) | hepc
        · refine c1_generic T b m _ hp hpc hf ht hne
            (isCastling_false_not_king b m _ hp (fun hh => PieceType.noConfusion hh))
            (isEnPassant_false_not_diag b m ?_) hOwn ?_
          · omega
          · intro _
            simp only [squareRank]
            constructor
            · intro hd; exfalso; omega
            · rintro (⟨h16, _⟩ | ⟨h16, _⟩) <;> omega
        · refine c1_generic T b m _ hp hpc hf ht hne
            (isCastling_false_not_king b m _ hp (fun hh => PieceType.noConfusion hh))
            (isEnPassant_false_not_diag b m ?_) hOwn ?_
          · omega
          · intro _
            simp only [squareRank] at hr6 ⊢
            constructor
            · intro _
              exact Or.inr ⟨h16, hr6⟩
            · intro _
              omega
        · have hgeo := hgeom
          simp only [pawnCaptureGeom, fileAdjacent, Bool.and_eq_true, Bool.or_eq_true,
            decide_eq_true_eq] at hgeo
          obtain ⟨hfa, hdir⟩ := hgeo
          obtain ⟨q, hq⟩ : ∃ q, b.pieces m.to_square = some q := by
            cases hq2 : b.pieces m.to_square with
            | none => rw [hq2] at hvic; cases hvic
            | some q => exact ⟨q, rfl⟩
          refine c1_generic T b m _ hp hpc hf ht hne
            (isCastling_false_not_king b m _ hp (fun hh => PieceType.noConfusion hh))
            (isEnPassant_false_occupied b m q hq) hOwn ?_
          intro _
          simp only [squareFile] at hfa
          simp only [squareRank]
          constructor
          · intro hd; exfalso; rcases hdir with h | h <;> omega
          · rintro (⟨h16, _⟩ | ⟨h16, _⟩) <;> exfalso <;> rcases hdir with h | h <;> omega
        · obtain ⟨⟨⟨⟨hgeom, hbe⟩, hempty⟩, hrk2⟩, hcapsq⟩ := hepc
          have hbt : b.turn = Color.black := hpc.symm
          have hp' : b.pieces m.from_square
              = some { pieceType := PieceType.pawn, color := b.turn } := by
            rw [hbt]; exact hp
          have hprom : m.promotion = none := by
            have hcondFalse : ¬ (Color.black = Color.white ∧ squareRank m.to_square = 7 ∨
                True ∧ squareRank m.to_square = 0) := by
              rintro (⟨hcb, -⟩ | ⟨-, h0⟩)
              · cases hcb
              · omega
            rw [if_neg hcondFalse] at hpromOk
            simpa using hpromOk
          have hgeom' : pawnCaptureGeom b.turn m = true := by rw [hbt]; exact hgeom
          have hcap' : b.pieces
              (if b.turn = Color.white then m.to_square - 8 else m.to_square + 8)
              = some { pieceType := PieceType.pawn, color := b.turn.other } := by
            rw [hbt]
            simpa [Color.other] using hcapsq
          exact c1_ep T b m hp' hf ht hbe hempty hprom hgeom' hcap'


/-! The claims. -/

/--
C1: for every position and every legal move of it — normal moves,
ordinary captures, en-passant captures, both castlings for both colours,
pawn double pushes, and promotions with and without capture — the
incremental Zobrist update agrees with a full rehash of the resulting
position, over the same tables.
-/
theorem c1_incremental_hash_equals_full_rehash (T : ZTables) (b : Board) (m : Move)
    (h : LegalMove b m) :
    update_cle T b (hash_zobrist T b) m = hash_zobrist T (pushMove b m) :=
  update_cle_correct T b m h

theorem c1_incremental_hash_equals_full_rehash_witness :
    LegalMove pawnBoard { from_square := 12, to_square := 28, promotion := none } ∧
    update_cle sampleT pawnBoard (hash_zobrist sampleT pawnBoard)
        { from_square := 12, to_square := 28, promotion := none } =
      hash_zobrist sampleT
        (pushMove pawnBoard { from_square := 12, to_square := 28, promotion := none }) :=
  ⟨by decide,
   c1_incremental_hash_equals_full_rehash sampleT pawnBoard
     { from_square := 12, to_square := 28, promotion := none } (by decide)⟩

/--
C2: FALSIFIED — the key the search hands to the null-move recursion is
`cle ^^^ ZT` (observed on `abBody` through a recursion stub that records
the key it receives), and on a position with an en-passant target this
differs from `hash_zobrist` of the position after the null push, because
the en-passant file key is never cleared; XOR-ing that file key out, as
the documented rule mandates, restores the equality.
-/
theorem c2_null_move_hash_misses_ep_clear :
    abBody sampleCtx sampleT markRecur emptyState ⟨epRookBoard, []⟩ 3 Score.negInf
        Score.posInf (hash_zobrist sampleT epRookBoard) true =
      (Score.posInf, { emptyState with tt :=
        [(hash_zobrist sampleT epRookBoard ^^^ sampleT.ZT, markEntry)] }) ∧
    hash_zobrist sampleT epRookBoard ^^^ sampleT.ZT ≠
      hash_zobrist sampleT (pushNull epRookBoard) ∧
    hash_zobrist sampleT epRookBoard ^^^ sampleT.ZT ^^^ sampleT.ZE (squareFile 20) =
      hash_zobrist sampleT (pushNull epRookBoard) := by
  refine ⟨?_, ?_, ?_⟩ <;> decide

/--
C3: FALSIFIED as stated — the store performed at the end of every
`alpha_beta` node is a plain dictionary assignment, not `update_TT`: here
a depth-1 search overwrites an existing depth-5 entry at the same key,
which the depth-preferred rule forbids.
-/
theorem c3_search_store_overwrites_deeper_entry :
    (ttLookup seededState.tt 42).map TTEntry.profondeur = some 5 ∧
    (ttLookup (alpha_beta sampleCtx sampleT seededState ⟨quietBoard, []⟩ 1
        Score.negInf Score.posInf 42 true).2.tt 42).map TTEntry.profondeur = some 1 :=
  ⟨rfl, by with_unfolding_all decide⟩

/--
C3 (amended): `update_TT` itself implements the depth-preferred
replacement rule — it writes exactly when the key is absent or the stored
depth is strictly smaller than the new one, and leaves the table unchanged
otherwise — while the store the search performs at the end of each node is
the unconditional assignment `ttSet`, whose entry is always retrievable
afterwards.
-/
theorem c3_update_TT_depth_preferred (TT : TTable) (cle : Nat) (ev : Score)
    (mv : Option Move) (pf fl : Nat) :
    (ttLookup TT cle = none →
      update_TT TT cle ev mv pf fl =
        ttSet TT cle { score := ev, profondeur := pf, move := mv, flag := fl }) ∧
    (∀ e, ttLookup TT cle = some e → e.profondeur < pf →
      update_TT TT cle ev mv pf fl =
        ttSet TT cle { score := ev, profondeur := pf, move := mv, flag := fl }) ∧
    (∀ e, ttLookup TT cle = some e → pf ≤ e.profondeur →
      update_TT TT cle ev mv pf fl = TT) ∧
    (∀ e, ttLookup (ttSet TT cle e) cle = some e) := by
  refine ⟨fun h => ?_, fun e he hlt => ?_, fun e he hge => ?_, fun e => ?_⟩
  · simp [update_TT, h]
  · simp [update_TT, he, hlt]
  · simp [update_TT, he, Nat.not_lt.mpr hge]
  · simp [ttLookup, ttSet]

theorem c3_update_TT_depth_preferred_witness :
    update_TT [] 9 (Score.val 1) none 2 EXACT =
        ttSet [] 9 { score := Score.val 1, profondeur := 2, move := none, flag := EXACT } ∧
    update_TT [(9, markEntry)] 9 (Score.val 1) none 2 EXACT =
        ttSet [(9, markEntry)] 9
          { score := Score.val 1, profondeur := 2, move := none, flag := EXACT } ∧
    update_TT [(9, { markEntry with profondeur := 7 })] 9 (Score.val 1) none 2 EXACT =
        [(9, { markEntry with profondeur := 7 })] ∧
    ttLookup (ttSet [] 9 markEntry) 9 = some markEntry :=
  ⟨(c3_update_TT_depth_preferred [] 9 (Score.val 1) none 2 EXACT).1 rfl,
   (c3_update_TT_depth_preferred [(9, markEntry)] 9 (Score.val 1) none 2 EXACT).2.1
     markEntry rfl (by decide),
   (c3_update_TT_depth_preferred [(9, { markEntry with profondeur := 7 })] 9
       (Score.val 1) none 2 EXACT).2.2.1
     { markEntry with profondeur := 7 } rfl (by decide),
   (c3_update_TT_depth_preferred [] 9 (Score.val 1) none 2 EXACT).2.2.2 markEntry⟩

/--
C4: at a node whose key has a table entry of depth at least the remaining
depth, the probe returns the stored score for an EXACT flag, raises alpha
to `max alpha stored` for LOWERBOUND, lowers beta to `min beta stored` for
UPPERBOUND, and returns the stored score when the adjusted window has
become empty; an entry of smaller depth leaves the window untouched.
-/
theorem c4_tt_probe (tt : TTable) (cle depth : Nat) (alpha beta : Score)
    (entry : TTEntry) (hl : ttLookup tt cle = some entry) :
    (depth ≤ entry.profondeur →
      (entry.flag = EXACT →
        ttProbeStep tt cle depth alpha beta = ProbeOut.ret entry.score) ∧
      (entry.flag = LOWERBOUND →
        ttProbeStep tt cle depth alpha beta =
          (if beta.le (Score.max alpha entry.score) then ProbeOut.ret entry.score
           else ProbeOut.cont (Score.max alpha entry.score) beta)) ∧
      (entry.flag = UPPERBOUND →
        ttProbeStep tt cle depth alpha beta =
          (if (Score.min beta entry.score).le alpha then ProbeOut.ret entry.score
           else ProbeOut.cont alpha (Score.min beta entry.score)))) ∧
    (entry.profondeur < depth →
      ttProbeStep tt cle depth alpha beta = ProbeOut.cont alpha beta) := by
  constructor
  · intro hd
    refine ⟨fun hf => ?_, fun hf => ?_, fun hf => ?_⟩ <;>
      simp [ttProbeStep, hl, hd, hf, EXACT, LOWERBOUND, UPPERBOUND]
  · intro hd
    simp [ttProbeStep, hl, Nat.not_le.mpr hd]

theorem c4_tt_probe_witness :
    ttProbeStep [(7, (⟨Score.val 3, 4, none, LOWERBOUND⟩ : TTEntry))] 7 2
        (Score.val 0) (Score.val 10) =
      ProbeOut.cont (Score.val 3) (Score.val 10) := by
  have h := ((c4_tt_probe [(7, (⟨Score.val 3, 4, none, LOWERBOUND⟩ : TTEntry))] 7 2
      (Score.val 0) (Score.val 10) ⟨Score.val 3, 4, none, LOWERBOUND⟩
      rfl).1 (by decide)).2.1 rfl
  rw [h]
  with_unfolding_all decide

/--
C5: `evaluate` checks the terminal cases first: a checkmated side to move
yields exactly -100000, and a stalemate or an insufficient-material
position yields exactly 0, with no weighted feature sum computed.
-/
theorem c5_terminal_evaluation (ctx : EvalCtx) (bs : BoardSt) :
    (isCheckmate bs.board = true → evaluate ctx bs = -100000) ∧
    (isStalemate bs.board = true → evaluate ctx bs = 0) ∧
    (isInsufficientMaterial bs.board = true → isCheckmate bs.board = false →
      evaluate ctx bs = 0) := by
  refine ⟨fun h => ?_, fun h => ?_, fun h hcm => ?_⟩
  · simp [evaluate, h]
  · have hcm : isCheckmate bs.board = false := by
      have h2 := h
      simp only [isStalemate, Bool.and_eq_true, Bool.not_eq_true'] at h2
      simp [isCheckmate, h2.1]
    simp [evaluate, hcm, h]
  · simp [evaluate, hcm, h]

theorem c5_terminal_evaluation_witness :
    evaluate sampleCtx ⟨mateBoard, []⟩ = -100000 ∧
    evaluate sampleCtx ⟨staleBoard, []⟩ = 0 ∧
    evaluate sampleCtx ⟨kkBoard, []⟩ = 0 :=
  ⟨(c5_terminal_evaluation sampleCtx ⟨mateBoard, []⟩).1 (by decide),
   (c5_terminal_evaluation sampleCtx ⟨staleBoard, []⟩).2.1 (by decide),
   (c5_terminal_evaluation sampleCtx ⟨kkBoard, []⟩).2.2 (by decide) (by decide)⟩

/--
C6: on a non-terminal position that meets the repetition threshold (the
source checks `is_repetition(2)`), `evaluate` returns only the fixed loop
penalty: -200 in the endgame phases "fin" and "finfin", and -80 in the
opening or middlegame.
-/
theorem c6_repetition_penalty (ctx : EvalCtx) (bs : BoardSt)
    (h1 : isCheckmate bs.board = false) (h2 : isStalemate bs.board = false)
    (h3 : isInsufficientMaterial bs.board = false)
    (h4 : isRepetition bs 2 = true) :
    (get_game_phase ctx bs.board = "fin" ∨ get_game_phase ctx bs.board = "finfin" →
      evaluate ctx bs = -200) ∧
    (get_game_phase ctx bs.board = "ouverture" ∨ get_game_phase ctx bs.board = "milieu" →
      evaluate ctx bs = -80) := by
  constructor
  · intro hp
    rcases hp with hp | hp <;> simp [evaluate, h1, h2, h3, h4, hp]
  · intro hp
    rcases hp with hp | hp <;> simp [evaluate, h1, h2, h3, h4, hp]

set_option maxRecDepth 40000 in
theorem c6_repetition_penalty_witness :
    evaluate sampleCtx repState = -200 ∧ evaluate bigKnightCtx repState = -80 :=
  ⟨(c6_repetition_penalty sampleCtx repState (by decide) (by decide) (by decide)
      (by decide)).1 (Or.inr (by with_unfolding_all decide)),
   (c6_repetition_penalty bigKnightCtx repState (by decide) (by decide) (by decide)
      (by decide)).2 (Or.inl (by with_unfolding_all decide))⟩

/--
C7: null-move pruning in `alpha_beta` with R = 2: past the terminal and
transposition checks, at nonzero depth, the null move is tried exactly
when null is allowed, the depth is at least 3, the side to move is not in
check, and it owns a knight, bishop, rook or queen; when tried, the search
recurses on the null-pushed board with depth `depth - 3`, window
`(-beta, -beta + 1)` and null disallowed, and the node returns beta
exactly when the negated null score reaches beta; `alphaBetaFuel (f + 1)`
computes this body.
-/
theorem c7_null_move_pruning (ctx : EvalCtx) (T : ZTables)
    (recur : SearchState → BoardSt → Nat → Score → Score → Nat → Bool →
      Score × SearchState)
    (st : SearchState) (bs : BoardSt) (depth : Nat) (alpha beta alpha' beta' : Score)
    (cle : Nat) (na : Bool)
    (hgo : isGameOver bs = false)
    (hprobe : ttProbeStep st.tt cle depth alpha beta = ProbeOut.cont alpha' beta')
    (hd : depth ≠ 0) :
    (nmpGuard bs.board depth na = true ↔
      na = true ∧ 3 ≤ depth ∧ isCheck bs.board = false ∧
        hasMinorOrMajor bs.board bs.board.turn = true) ∧
    (nmpGuard bs.board depth na = true →
      abBody ctx T recur st bs depth alpha beta cle na =
        (let r := recur st (pushNullSt bs) (depth - 3) beta'.neg (beta'.neg.addQ 1)
            (cle ^^^ T.ZT) false
         if beta'.le r.1.neg then (beta', r.2)
         else abMoveLoop ctx T recur r.2 bs depth alpha' beta' cle)) ∧
    (nmpGuard bs.board depth na = false →
      abBody ctx T recur st bs depth alpha beta cle na =
        abMoveLoop ctx T recur st bs depth alpha' beta' cle) ∧
    (∀ f, alphaBetaFuel ctx T (f + 1) = abBody ctx T (alphaBetaFuel ctx T f)) := by
  refine ⟨?_, fun hg => ?_, fun hg => ?_, fun f => rfl⟩
  · simp [nmpGuard, Bool.and_eq_true, Bool.not_eq_true', decide_eq_true_iff, and_assoc]
  · simp only [abBody, hgo, Bool.false_eq_true, if_false, hprobe, hd, hg, if_true]
    simp [Nat.sub_sub]
  · simp only [abBody, hgo, Bool.false_eq_true, if_false, hprobe, hd, hg]

theorem c7_null_move_pruning_witness :
    abBody sampleCtx sampleT (alphaBetaFuel sampleCtx sampleT 3) emptyState
      ⟨rookBoard, []⟩ 3 (Score.val (-10)) (Score.val (-5)) 77 true =
      (Score.val (-5), emptyState) := by
  have h := (c7_null_move_pruning sampleCtx sampleT (alphaBetaFuel sampleCtx sampleT 3)
      emptyState ⟨rookBoard, []⟩ 3 (Score.val (-10)) (Score.val (-5))
      (Score.val (-10)) (Score.val (-5)) 77 true (by decide) rfl (by decide)).2.1
      (by decide)
  rw [h]
  with_unfolding_all decide

/--
C8: the quiescence recursion is indexed by the remaining `max_depth`
(5 at its call site): with fuel 0 it returns beta on a stand-pat cutoff
and otherwise the stand-pat-adjusted alpha, performing no recursive call,
and with fuel `n + 1` it runs one capture-search step whose recursive
calls receive fuel `n`, so the recursion depth is bounded by the initial
fuel and the function terminates on every input.
-/
theorem c8_quiescence_fuel (ctx : EvalCtx) (bs : BoardSt) (alpha beta : Score) (n : Nat) :
    quiescence ctx 0 bs alpha beta =
      (if beta.le (Score.val (evaluate ctx bs)) then beta
       else if alpha.lt (Score.val (evaluate ctx bs)) then Score.val (evaluate ctx bs)
       else alpha) ∧
    quiescence ctx (n + 1) bs alpha beta =
      quiescenceStep ctx (quiescence ctx n) bs alpha beta :=
  ⟨rfl, rfl⟩

/--
C9: weight sanitisation enforces the bound 50: if any loaded weight
exceeds it in absolute value the whole mapping is replaced by the
defaults, otherwise the mapping is returned unchanged; and the saved
mapping clamps every weight individually into [-50, 50].
-/
theorem c9_weight_sanitisation (w : List (String × ℚ)) :
    ((∃ kv ∈ w, WEIGHT_CLAMP < |kv.2|) → sane_weights w = DEFAULT_WEIGHTS) ∧
    ((∀ kv ∈ w, |kv.2| ≤ WEIGHT_CLAMP) → sane_weights w = w) ∧
    weights_to_save w = w.map (fun kv => (kv.1, clampWeight kv.2)) ∧
    (∀ kv ∈ weights_to_save w, -WEIGHT_CLAMP ≤ kv.2 ∧ kv.2 ≤ WEIGHT_CLAMP) := by
  refine ⟨fun h => ?_, fun h => ?_, rfl, fun kv hkv => ?_⟩
  · obtain ⟨kv, hmem, hgt⟩ := h
    have : w.any (fun kv => decide (WEIGHT_CLAMP < |kv.2|)) = true :=
      List.any_eq_true.mpr ⟨kv, hmem, by simpa using hgt⟩
    simp [sane_weights, this]
  · have : w.any (fun kv => decide (WEIGHT_CLAMP < |kv.2|)) = false := by
      rw [List.any_eq_false]
      intro kv hmem
      simpa using not_lt.mpr (h kv hmem)
    simp [sane_weights, this]
  · rw [weights_to_save, List.mem_map] at hkv
    obtain ⟨a, ha, rfl⟩ := hkv
    refine ⟨le_max_left _ _, max_le ?_ (min_le_left _ _)⟩
    rw [WEIGHT_CLAMP]
    norm_num

theorem c9_weight_sanitisation_witness :
    sane_weights [("material", 99)] = DEFAULT_WEIGHTS ∧
    sane_weights [("psqt", 3)] = [("psqt", 3)] ∧
    weights_to_save [("a", 999), ("b", -999)] =
      [("a", 999), ("b", -999)].map (fun kv => (kv.1, clampWeight kv.2)) ∧
    (-WEIGHT_CLAMP ≤ (50 : ℚ) ∧ (50 : ℚ) ≤ WEIGHT_CLAMP) :=
  ⟨(c9_weight_sanitisation [("material", 99)]).1
     ⟨("material", 99), by simp, by rw [WEIGHT_CLAMP]; norm_num⟩,
   (c9_weight_sanitisation [("psqt", 3)]).2.1 (by
     intro kv hkv
     simp only [List.mem_singleton] at hkv
     rw [hkv, WEIGHT_CLAMP]
     norm_num),
   (c9_weight_sanitisation [("a", 999), ("b", -999)]).2.2.1,
   (c9_weight_sanitisation [("a", 999), ("b", -999)]).2.2.2 ("a", 50) (by
     have : clampWeight 999 = 50 := by rw [clampWeight, WEIGHT_CLAMP]; norm_num
     simp [weights_to_save, this])⟩

/--
C10: `update_cle` leaves the board unchanged: the push it performs
internally to diff the castling rights is undone by the matching pop, so
the stateful call returns the stacked board exactly as it received it,
together with the key the pure computation produces.
-/
theorem c10_update_cle_frame (T : ZTables) (bs : BoardSt) (cle : Nat) (m : Move) :
    update_cle_st T bs cle m = (bs, update_cle T bs.board cle m) := by
  cases hp : bs.board.pieces m.from_square <;>
    simp only [update_cle_st, update_cle, hp, pushSt, popSt]

end Chess
